import Mathlib

/-!
InspIRCd `users.cpp`: receive queue, send queue, connect classes and neighbours.

A shallow embedding of functions of src/src/users.cpp and of the helpers they
call, and of the extension item of src/src/modules/m_services_account.cpp,
followed by the properties proved about them:

* `UserIOHandler::OnDataReady`, the receive-queue pipeline;
* `UserIOHandler::AddWriteBuf`, the admission of output to the send queue;
* `LocalUser::SetClass`, `LocalUser::CheckClass` and `LocalUser::CheckLines`, the
  choice and the enforcement of the connect class (namespace `Admission`);
* `User::ForEachNeighbor`, the visit of the neighbours of a user;
* the constructor `User::User` (`User_User`) and the uuid list;
* `User::ChangeRealHost` and `User::GetDisplayedHost`;
* `ServicesExtItem::serialize` and `ServicesExtItem::unserialize`;
* `User::GetModeLetters`.

Modelling conventions.

* A `std::string` buffer is a list of bytes; a byte is a `Fin 256`.
* `unsigned long` and `size_t` are 64 bits wide: `ULONG_MAX = 2^64 - 1`, and the
  arithmetic the function performs on such values is taken modulo `2^64`.
* `ServerInstance->Parser.ProcessBuffer(line, user)`, the command dispatcher, is
  not part of the function: it is a parameter, an arbitrary function from the
  line and the state it is handed to the state it leaves behind.  It can change
  every field of `Session`; it does not touch the handler's `recvq`.
* The run of `OnDataReady` is instrumented with a record of every call of the
  dispatcher (`Dispatched`), so that properties of the form "every line handed to
  the dispatcher ..." can be stated; in the same way the second loop of `SetClass`
  returns the classes it examined and `ForEachNeighbor` the users on which the
  handler was executed.
* Each function is embedded over the part of the state it reads and writes; module
  hooks and functions whose code is not among the sources are parameters.
-/

namespace InspIRCd

/-- One `char` of a socket buffer. -/
abbrev Byte := Fin 256

/-- The line feed, written '\n' in the source. -/
abbrev LF : Byte := 10
/-- The carriage return, written '\r' in the source. -/
abbrev CR : Byte := 13
/-- The NUL byte, written '\0' in the source. -/
abbrev NUL : Byte := 0
/-- The space character. -/
abbrev SPACE : Byte := 32

/-- The largest `unsigned long`. -/
def ULONG_MAX : Nat := 2 ^ 64 - 1

/-- The part of a `ConnectClass` read by `OnDataReady`.  The three getters are
declared in users.h, which is not among the sources: each field is the value the
getter of that name returns. -/
structure ConnectClass where
  /-- The member `fakelag`: true when the class throttles a flooding user
  instead of disconnecting it. -/
  fakelag : Bool
  /-- The value of `GetRecvqMax()`. -/
  GetRecvqMax : Nat
  /-- The value of `GetSendqSoftMax()`. -/
  GetSendqSoftMax : Nat
  /-- The value of `GetPenaltyThreshold()`. -/
  GetPenaltyThreshold : Nat

/-- The oper account of a user.  `AllowedPrivs` stands for
`oper->AllowedPrivs.Contains`, a token list whose class is not among the
sources. -/
structure OperInfo where
  AllowedPrivs : String → Bool

/-- The state `OnDataReady` and the dispatcher act on, `recvq` apart:
the fields `quitting`, `oper`, `MyClass`, `CommandFloodPenalty`, `bytes_in` and
`cmds_in` of the `LocalUser`, the size of the send queue of its handler
(`getSendQSize()`), and the counter `ServerInstance->stats.Recv`. -/
structure Session where
  quitting : Bool
  oper : Option OperInfo
  MyClass : ConnectClass
  CommandFloodPenalty : Nat
  bytes_in : Nat
  cmds_in : Nat
  SendQSize : Nat
  stats_Recv : Nat

/-- The command dispatcher `ServerInstance->Parser.ProcessBuffer(line, user)`. -/
abbrev Dispatcher := List Byte → Session → Session

/-- `LocalUser::IsOper` followed by `LocalUser::HasPrivPermission(privstr)` with
`noisy` false, its default: an oper whose privilege list contains the
privilege. -/
def HasPrivPermission (u : Session) (privstr : String) : Bool :=
  match u.oper with
  | none => false
  | some o => o.AllowedPrivs privstr

/-- Modelled from the spec: `UserManager::QuitUser` (usermanager.cpp is not among
the sources) marks the connection terminating; a user already quitting is left
alone.  The reason it is given is kept in `Outcome.quit`. -/
def QuitUser (u : Session) : Session :=
  if u.quitting then u else { u with quitting := true }

/-- One call of the dispatcher made by `OnDataReady`, with the state around it. -/
structure Dispatched where
  /-- The `recvq` when the pass of the outer loop began. -/
  recvq_before : List Byte
  /-- The state on which the condition of the outer loop was evaluated. -/
  at_guard : Session
  /-- The number of bytes erased from the front of `recvq`. -/
  qpos : Nat
  /-- The line handed to the dispatcher. -/
  line : List Byte
  /-- The `recvq` after the erase, when the dispatcher is called. -/
  recvq_after : List Byte
  /-- The state handed to the dispatcher. -/
  handed : Session
  /-- The state the dispatcher returned. -/
  returned : Session

/-- What a call of `OnDataReady` leaves behind. -/
structure Outcome where
  recvq : List Byte
  user : Session
  /-- The calls of the dispatcher, in order. -/
  dispatched : List Dispatched
  /-- The reason of the `QuitUser` call made by `OnDataReady` itself, if any. -/
  quit : Option String

/-- The inner `while (qpos < qlen)` loop.  The first argument is what is left of
`recvq` from position `qpos` on.  Returns `eol_found`, `qpos` and `line`. -/
def scanLine (maxmessage : Nat) : List Byte → Nat → List Byte → Bool × Nat × List Byte
  | [], qpos, line => (false, qpos, line)
  | c :: rest, qpos, line =>
    if c = CR then scanLine maxmessage rest (qpos + 1) line
    else if c = LF then (true, qpos + 1, line)
    else
      let c1 := if c = NUL then SPACE else c
      if line.length < maxmessage then scanLine maxmessage rest (qpos + 1) (line ++ [c1])
      else scanLine maxmessage rest (qpos + 1) line

/-- The three counter updates between the erase and the dispatcher call. -/
def account (u : Session) (qpos : Nat) : Session :=
  { u with
    stats_Recv := (u.stats_Recv + qpos) % 2 ^ 64
    bytes_in := (u.bytes_in + qpos) % 2 ^ 64
    cmds_in := (u.cmds_in + 1) % 2 ^ 64 }

/-- The outer `while` loop and the statement after it.  Every pass that goes
round erases at least one byte of `recvq`, so `recvq.length + 1` passes are
enough (`consume_fuel`); the first argument counts the passes that are left. -/
def consume (ProcessBuffer : Dispatcher) (penaltymax sendqmax maxmessage : Nat) :
    Nat → List Byte → Session → Outcome
  | 0, recvq, u => ⟨recvq, u, [], none⟩
  | fuel + 1, recvq, u =>
    if u.CommandFloodPenalty < penaltymax ∧ u.SendQSize < sendqmax then
      match scanLine maxmessage recvq 0 [] with
      | (false, _, _) => ⟨recvq, u, [], none⟩
      | (true, qpos, line) =>
        let recvq1 := recvq.drop qpos
        let u1 := account u qpos
        let u2 := ProcessBuffer line u1
        let d : Dispatched := ⟨recvq, u, qpos, line, recvq1, u1, u2⟩
        if u2.quitting then ⟨recvq1, u2, [d], none⟩
        else
          let r := consume ProcessBuffer penaltymax sendqmax maxmessage fuel recvq1 u2
          { r with dispatched := d :: r.dispatched }
    else if u.CommandFloodPenalty ≥ penaltymax ∧ !u.MyClass.fakelag then
      ⟨recvq, QuitUser u, [], some "Excess Flood"⟩
    else ⟨recvq, u, [], none⟩

/-- The local `sendqmax`. -/
def sendqmax (u : Session) : Nat :=
  if !HasPrivPermission u "users/flood/increased-buffers" then u.MyClass.GetSendqSoftMax
  else ULONG_MAX

/-- The local `penaltymax`. -/
def penaltymax (u : Session) : Nat :=
  if !HasPrivPermission u "users/flood/no-fakelag" then
    (u.MyClass.GetPenaltyThreshold * 1000) % 2 ^ 64
  else ULONG_MAX

/-- The local `maxmessage`, `Limits.MaxLine - 2` in `size_t`. -/
def maxmessage (MaxLine : Nat) : Nat := (MaxLine + 2 ^ 64 - 2) % 2 ^ 64

/-- `UserIOHandler::OnDataReady`, for the dispatcher `ProcessBuffer` and the
configured `Limits.MaxLine`, on a handler whose receive queue is `recvq`. -/
def OnDataReady (ProcessBuffer : Dispatcher) (MaxLine : Nat) (recvq : List Byte)
    (u : Session) : Outcome :=
  if u.quitting then ⟨recvq, u, [], none⟩
  else if recvq.length > u.MyClass.GetRecvqMax ∧
      !HasPrivPermission u "users/flood/increased-buffers" then
    ⟨recvq, QuitUser u, [], some "RecvQ exceeded"⟩
  else
    consume ProcessBuffer (penaltymax u) (sendqmax u) (maxmessage MaxLine)
      (recvq.length + 1) recvq u

/-! ## `UserIOHandler::AddWriteBuf` -/

/-- The state `UserIOHandler::AddWriteBuf` acts on: the fields `uuid`, `quitting`,
`quitting_sendq` and `oper` of the `LocalUser`, the value of
`MyClass->GetSendqHardMax()` (a getter of users.h, which is not among the sources),
the send queue of the handler as the bytes it holds (`getSendQSize()` is its
length), and the list `ServerInstance->GlobalCulls.SQlist` of the users waiting to
be culled for their send queue, by uuid. -/
structure SendSide where
  uuid : String
  quitting : Bool
  quitting_sendq : Bool
  oper : Option OperInfo
  GetSendqHardMax : Nat
  sendq : List Byte
  SQlist : List String

/-- `LocalUser::HasPrivPermission(privstr)` on the state of `AddWriteBuf`. -/
def SendSide.HasPrivPermission (s : SendSide) (privstr : String) : Bool :=
  match s.oper with
  | none => false
  | some o => o.AllowedPrivs privstr

/-- Modelled from the spec: `StreamSocket::WriteData` (inspsocket.cpp is not among
the sources) appends the data to the send queue. -/
def WriteData (s : SendSide) (data : List Byte) : SendSide :=
  { s with sendq := s.sendq ++ data }

/-- Modelled from the spec: `CullList::AddSQItem` (cull_list.h is not among the
sources) adds the user to the set of users to be destroyed later, at the next
cull, for having exceeded their send queue. -/
def AddSQItem (s : SendSide) : SendSide :=
  { s with SQlist := s.SQlist ++ [s.uuid] }

/-- `UserIOHandler::AddWriteBuf`.  The sum `getSendQSize() + data.length()` is a
sum of the sizes of two buffers held in memory, which does not wrap. -/
def AddWriteBuf (s : SendSide) (data : List Byte) : SendSide :=
  if s.quitting_sendq then s
  else if !s.quitting ∧ s.sendq.length + data.length > s.GetSendqHardMax ∧
      !s.HasPrivPermission "users/flood/increased-buffers" then
    AddSQItem { s with quitting_sendq := true }
  else WriteData s data

/-! ## `LocalUser::SetClass`, `LocalUser::CheckClass` and `LocalUser::CheckLines` -/

namespace Admission

/-- The values of `ConnectClass::type` (the constants `CC_ALLOW`, `CC_DENY` and
`CC_NAMED` of users.h). -/
inductive ClassTypes where
  | CC_ALLOW
  | CC_DENY
  | CC_NAMED
  deriving DecidableEq

/-- The answers of a module hook (`ModResult`). -/
inductive ModResult where
  | MOD_RES_DENY
  | MOD_RES_PASSTHRU
  | MOD_RES_ALLOW
  deriving DecidableEq

/-- The part of a `ConnectClass` read by `SetClass` and `CheckClass`.  The keys of
its config tag are fields: `registered` is the key "registered" when it is set,
`password` and `hash` are `getString("password")` and `getString("hash")`, and
`reason` is the key "reason" when it is set.  `GetReferenceCount`, `GetMaxLocal`,
`GetMaxGlobal` and `GetPingTime` are the values the getters of these names
return. -/
structure ConnectClass where
  type : ClassTypes
  name : String
  host : String
  limit : Nat
  GetReferenceCount : Nat
  ports : List Nat
  registered : Option Bool
  password : String
  hash : String
  reason : Option String
  GetMaxLocal : Nat
  GetMaxGlobal : Nat
  maxconnwarn : Bool
  GetPingTime : Nat
  deriving DecidableEq

/-- The constant `REG_NONE`: nothing of the registration has been received. -/
def REG_NONE : Nat := 0

/-- The part of a `LocalUser` read and written by `SetClass`, `CheckClass` and
`CheckLines`.  `MyClass` is `none` for the NULL reference; `GetIPString`,
`GetRealHost` and `GetServerPort` are the values these functions return. -/
structure LocalUser where
  MyClass : Option ConnectClass
  registered : Nat
  GetIPString : String
  GetRealHost : String
  GetServerPort : Nat
  password : String
  exempt : Bool
  quitting : Bool
  nping : Nat
  deriving DecidableEq

/-- What `SetClass` reads of the server: the class list `Config->Classes`, the
answer of the modules to the `OnSetConnectClass` hook, and the functions
`InspIRCd::MatchCIDR` and `InspIRCd::PassCompare`, none of which is among the
sources. -/
structure Server where
  Classes : List ConnectClass
  OnSetConnectClass : LocalUser → ConnectClass → ModResult
  MatchCIDR : String → String → Bool
  PassCompare : LocalUser → String → String → String → Bool

/-- The first loop of `SetClass`, on what is left of the class list, with the
value of `found` so far: it has no `break`. -/
def explicitScan (explicit_name : String) : List ConnectClass → Option ConnectClass →
    Option ConnectClass
  | [], found => found
  | c :: rest, found =>
    if explicit_name = c.name then explicitScan explicit_name rest (some c)
    else explicitScan explicit_name rest found

/-- The second loop of `SetClass`, on what is left of the class list.  Returns
`found` and the classes the loop examined, in order. -/
def inferScan (sv : Server) (u : LocalUser) :
    List ConnectClass → Option ConnectClass × List ConnectClass
  | [] => (none, [])
  | c :: rest =>
    let next := ((inferScan sv u rest).1, c :: (inferScan sv u rest).2)
    match sv.OnSetConnectClass u c with
    | ModResult.MOD_RES_DENY => next
    | ModResult.MOD_RES_ALLOW => (some c, [c])
    | ModResult.MOD_RES_PASSTHRU =>
      if c.type = ClassTypes.CC_NAMED then next
      else
        let regdone : Bool := u.registered ≠ REG_NONE
        if c.registered.getD regdone ≠ regdone then next
        else if !sv.MatchCIDR u.GetIPString c.host ∧ !sv.MatchCIDR u.GetRealHost c.host then next
        else if c.limit ≠ 0 ∧ c.GetReferenceCount ≥ c.limit then next
        else if c.ports ≠ [] ∧ u.GetServerPort ∉ c.ports then next
        else if regdone ∧ c.password ≠ "" ∧
            !sv.PassCompare u c.password u.password c.hash then next
        else (some c, [c])

/-- The value of the local `found` when the loops of `SetClass` are over. -/
def SetClass_found (sv : Server) (u : LocalUser) (explicit_name : String) :
    Option ConnectClass :=
  if explicit_name ≠ "" then explicitScan explicit_name sv.Classes none
  else (inferScan sv u sv.Classes).1

/-- `LocalUser::SetClass(explicit_name)`. -/
def SetClass (sv : Server) (u : LocalUser) (explicit_name : String) : LocalUser :=
  match SetClass_found sv u explicit_name with
  | some found => { u with MyClass := some found }
  | none => u

/-- The statements `MyClass = NULL; SetClass();` of `LocalUser::FullConnect`. -/
def FullConnect_SetClass (sv : Server) (u : LocalUser) : LocalUser :=
  SetClass sv { u with MyClass := none } ""

/-- Modelled from the spec: `UserManager::QuitUser` (usermanager.cpp is not among
the sources) marks the connection terminating; a user already quitting is left
alone.  The reason is kept in the result of the caller. -/
def QuitUser (u : LocalUser) : LocalUser :=
  if u.quitting then u else { u with quitting := true }

/-- `LocalUser::CheckClass(clone_count)`.  `now` is `ServerInstance->Time()`, and
`clonecounts_local`, `clonecounts_global` are the two counts of
`ServerInstance->Users->GetCloneCounts(this)`.  Returns the user and the reason of
the `QuitUser` call it made, if any. -/
def CheckClass (now clonecounts_local clonecounts_global : Nat) (u : LocalUser)
    (clone_count : Bool) : LocalUser × Option String :=
  match u.MyClass with
  | none => (QuitUser u, some "Access denied by configuration")
  | some a =>
    if a.type = ClassTypes.CC_DENY then
      (QuitUser u, some (a.reason.getD "Unauthorised connection"))
    else if clone_count then
      if a.GetMaxLocal ≠ 0 ∧ clonecounts_local > a.GetMaxLocal then
        (QuitUser u,
          some "No more connections allowed from your host via this connect class (local)")
      else if a.GetMaxGlobal ≠ 0 ∧ clonecounts_global > a.GetMaxGlobal then
        (QuitUser u,
          some "No more connections allowed from your host via this connect class (global)")
      else ({ u with nping := now + a.GetPingTime }, none)
    else ({ u with nping := now + a.GetPingTime }, none)

/-- The loop of `LocalUser::CheckLines` over the line types left to check.
`MatchesLine` is `ServerInstance->XLines->MatchesLine` and `Apply` is
`XLine::Apply`, neither of which is among the sources; a line is named by its
reason. -/
def checkLoop (MatchesLine : String → LocalUser → Option String)
    (Apply : String → LocalUser → LocalUser) (u : LocalUser) :
    List String → Bool × LocalUser
  | [] => (false, u)
  | t :: rest =>
    match MatchesLine t u with
    | some r => (true, Apply r u)
    | none => checkLoop MatchesLine Apply u rest

/-- `LocalUser::CheckLines(doZline)`: the array `check` holds "G", "K" and, when
`doZline` is set, "Z". -/
def CheckLines (MatchesLine : String → LocalUser → Option String)
    (Apply : String → LocalUser → LocalUser) (u : LocalUser) (doZline : Bool) :
    Bool × LocalUser :=
  if !u.exempt then
    checkLoop MatchesLine Apply u (if doZline then ["G", "K", "Z"] else ["G", "K"])
  else (false, u)

end Admission

/-! ## `User::ForEachNeighbor` -/

/-- A `User*`. -/
abbrev UserId := Nat

/-- A `std::map<User*, bool>`: its entries in the order of iteration, no two of
them for the same user. -/
structure ExceptionMap where
  entries : List (UserId × Bool)
  nodup : (entries.map Prod.fst).Nodup

/-- A channel, as the users of `chan->GetUsers()` in the order of iteration. -/
abbrev Channel := List UserId

/-- What `ForEachNeighbor` reads of the users: `IS_LOCAL(user)` is not NULL, the
`quitting` flag, and the `already_sent` stamp on entry. -/
structure Users where
  IS_LOCAL : UserId → Bool
  quitting : UserId → Bool
  already_sent : UserId → Nat

/-- The effect of the modules on `FOREACH_MOD(OnBuildNeighborList, (this,
include_chans, exceptions))`: from the source, the channel list and the exception
map to the channel list and the exception map the modules leave. -/
abbrev NeighborHook := UserId → List Channel → ExceptionMap → List Channel × ExceptionMap

/-- The assignment `curr->already_sent = newid`. -/
def stamp (sent : UserId → Nat) (curr : UserId) (newid : Nat) : UserId → Nat :=
  fun x => if x = curr then newid else sent x

/-- The loop over the exceptions, on the entries that are left.  Returns the
stamps and the users on which `handler.Execute` was called, in order. -/
def visitExceptions (w : Users) (newid : Nat) :
    List (UserId × Bool) → (UserId → Nat) → (UserId → Nat) × List UserId
  | [], sent => (sent, [])
  | (curr, flag) :: rest, sent =>
    if w.IS_LOCAL curr then
      if flag ∧ !w.quitting curr then
        ((visitExceptions w newid rest (stamp sent curr newid)).1,
          curr :: (visitExceptions w newid rest (stamp sent curr newid)).2)
      else visitExceptions w newid rest (stamp sent curr newid)
    else visitExceptions w newid rest sent

/-- The inner loop over the members of one channel, on the members that are
left. -/
def visitMembers (w : Users) (newid : Nat) :
    List UserId → (UserId → Nat) → (UserId → Nat) × List UserId
  | [], sent => (sent, [])
  | curr :: rest, sent =>
    if w.IS_LOCAL curr ∧ sent curr ≠ newid then
      ((visitMembers w newid rest (stamp sent curr newid)).1,
        curr :: (visitMembers w newid rest (stamp sent curr newid)).2)
    else visitMembers w newid rest sent

/-- The loop over the channels of `include_chans`, on the channels that are
left. -/
def visitChannels (w : Users) (newid : Nat) :
    List Channel → (UserId → Nat) → (UserId → Nat) × List UserId
  | [], sent => (sent, [])
  | chan :: rest, sent =>
    ((visitChannels w newid rest (visitMembers w newid chan sent).1).1,
      (visitMembers w newid chan sent).2 ++
        (visitChannels w newid rest (visitMembers w newid chan sent).1).2)

/-- What a call of `ForEachNeighbor` leaves: the users on which `handler.Execute`
was called, in order, and the `already_sent` stamps. -/
structure Visit where
  executed : List UserId
  already_sent : UserId → Nat

/-- The exception map after `exceptions[this] = include_self`. -/
def selfException (source : UserId) (include_self : Bool) : ExceptionMap :=
  { entries := [(source, include_self)], nodup := List.nodup_singleton _ }

/-- `User::ForEachNeighbor(handler, include_self)` for the user `source` whose
channels are `chans`.  `newid` is the value of `NextAlreadySentId()`, a function of
the user manager, which is not among the sources. -/
def ForEachNeighbor (w : Users) (OnBuildNeighborList : NeighborHook) (newid : Nat)
    (source : UserId) (chans : List Channel) (include_self : Bool) : Visit :=
  let built := OnBuildNeighborList source chans (selfException source include_self)
  let first := visitExceptions w newid built.2.entries w.already_sent
  let second := visitChannels w newid built.1 first.1
  { executed := first.2 ++ second.2, already_sent := second.1 }

/-! ## `User::User` -/

/-- The `UserType` of users.h, which is not among the sources; the constructor
compares it with `USERTYPE_SERVER` alone. -/
inductive UserType where
  | USERTYPE_LOCAL
  | USERTYPE_REMOTE
  | USERTYPE_SERVER
  deriving DecidableEq

/-- The map `ServerInstance->Users.uuidlist` from uuid to `User*`: the user a uuid
is the key of, if it is a key. -/
abbrev UuidList := String → Option UserId

/-- The call `uuidlist.insert(std::make_pair(uuid, user))` of the standard
library: a map that has the key already is left as it is and the second
component of the result is false; otherwise the pair is added and it is true. -/
def uuidlist_insert (uuidlist : UuidList) (uuid : String) (user : UserId) : UuidList × Bool :=
  match uuidlist uuid with
  | some _ => (uuidlist, false)
  | none => (fun k => if k = uuid then some user else uuidlist k, true)

/-- What a run of the constructor leaves: the uuid list, and the reason of the
`CoreException` it threw, if it threw. -/
structure Constructed where
  uuidlist : UuidList
  thrown : Option String

/-- The body of `User::User(uid, srv, type)` for the object `this`, on the uuid
list it finds. -/
def User_User (uuidlist : UuidList) (this : UserId) (uid : String) (type : UserType) :
    Constructed :=
  if type ≠ UserType.USERTYPE_SERVER then
    if !(uuidlist_insert uuidlist uid this).2 then
      ⟨(uuidlist_insert uuidlist uid this).1, some ("Duplicate UUID in User constructor: " ++ uid)⟩
    else ⟨(uuidlist_insert uuidlist uid this).1, none⟩
  else ⟨uuidlist, none⟩

/-! ## `User::ChangeRealHost` -/

/-- The fields `realhost` and `displayhost` of a `User`. -/
structure Hosts where
  realhost : String
  displayhost : String
  deriving DecidableEq

/-- `User::GetDisplayedHost`. -/
def GetDisplayedHost (u : Hosts) : String :=
  if u.displayhost = "" then u.realhost else u.displayhost

/-- `User::GetRealHost`. -/
def GetRealHost (u : Hosts) : String := u.realhost

/-- `User::ChangeRealHost(host, resetdisplay)`.  The call of `InvalidateCache` at
its end touches neither of the two fields. -/
def ChangeRealHost (u : Hosts) (host : String) (resetdisplay : Bool) : Hosts :=
  let changehost := decide (u.realhost ≠ host)
  if !changehost ∧ !resetdisplay then u
  else
    let u1 : Hosts :=
      if u.displayhost = "" ∧ !resetdisplay then { u with displayhost := u.realhost }
      else if u.displayhost = host ∨ resetdisplay then { u with displayhost := "" }
      else u
    if !changehost then u1
    else { u1 with realhost := host }

/-! ## `ServicesExtItem` -/

/-- The `AccountItem` of m_services_account.cpp. -/
structure AccountItem where
  account : List Byte
  tag : List Byte
  deriving DecidableEq

/-- `std::string::find(c)`: the position of the first `c`, `none` for `npos`. -/
def find : List Byte → Byte → Option Nat
  | [], _ => none
  | x :: xs, c => if x = c then some 0 else (find xs c).map (fun i => i + 1)

/-- `ServicesExtItem::serialize`, on the item `itemv` points to (`none` for a null
pointer).  It reads neither the format nor the container. -/
def serialize (itemv : Option AccountItem) : List Byte :=
  match itemv with
  | none => []
  | some item =>
    if item.tag = [] then item.account
    else item.account ++ SPACE :: item.tag

/-- `ServicesExtItem::unserialize`, on the item the container holds for the
extension: the item it holds after the call (`unset` leaves none, `set` the new
item in place of the old one).  `value.substr(0, spc)` is the first `spc` bytes
and `value.substr(spc + 1)` the bytes from position `spc + 1` on. -/
def unserialize (_container : Option AccountItem) (value : List Byte) : Option AccountItem :=
  let spc := find value SPACE
  if value = [] then none
  else
    match spc with
    | none => some ⟨value, []⟩
    | some spc => some ⟨value.take spc, value.drop (spc + 1)⟩

/-! ## `User::GetModeLetters` -/

/-- What `GetModeLetters` reads of a mode handler `mh` for the user: its mode
character, `mh->NeedsParam(true)`, `IsModeSet(mh)` and
`mh->GetUserParameter(this)`. -/
structure ModeHandler where
  GetModeChar : Byte
  NeedsParam : Bool
  IsModeSet : Bool
  GetUserParameter : List Byte

/-- The `for` loop of `GetModeLetters` from the letter `i` on, with `ret` and
`params` as they stand.  `FindMode i` is `ServerInstance->Modes.FindMode(i,
MODETYPE_USER)`; the letter `z` is 122.  The first argument counts the passes
that are left: an `unsigned char` takes 256 values. -/
def modeLoop (FindMode : Nat → Option ModeHandler) (includeparams : Bool) :
    Nat → Nat → List Byte × List Byte → List Byte × List Byte
  | 0, _, acc => acc
  | fuel + 1, i, (ret, params) =>
    if i < 122 then
      match FindMode i with
      | none => modeLoop FindMode includeparams fuel (i + 1) (ret, params)
      | some mh =>
        if !mh.IsModeSet then modeLoop FindMode includeparams fuel (i + 1) (ret, params)
        else
          let ret1 := ret ++ [mh.GetModeChar]
          let params1 :=
            if includeparams ∧ mh.NeedsParam then
              if mh.GetUserParameter ≠ [] then params ++ SPACE :: mh.GetUserParameter
              else params
            else params
          modeLoop FindMode includeparams fuel (i + 1) (ret1, params1)
    else (ret, params)

/-- `User::GetModeLetters(includeparams)`; the letter `A` is 65 and `+` is 43. -/
def GetModeLetters (FindMode : Nat → Option ModeHandler) (includeparams : Bool) : List Byte :=
  let r := modeLoop FindMode includeparams 256 65 ([43], [])
  r.1 ++ r.2

/-! ## Reference definitions used to state the properties -/

/-- The bytes of a buffer that come before its first line feed (the whole buffer
when it has none). -/
def content (recvq : List Byte) : List Byte := recvq.takeWhile (fun c => c ≠ LF)

/-- A raw line with its carriage returns dropped and its NUL bytes turned into
spaces. -/
def clean (l : List Byte) : List Byte :=
  (l.filter (fun c => c ≠ CR)).map (fun c => if c = NUL then SPACE else c)

/-- The sanitized line: the cleaned bytes, cut at `maxmessage`. -/
def sanitize (maxmessage : Nat) (l : List Byte) : List Byte := (clean l).take maxmessage

/-- The number of bytes a line takes in the buffer, its line feed included. -/
def lineEnd (recvq : List Byte) : Nat := (content recvq).length + 1

/-- The record of the pass of the outer loop that starts on `recvq` and `u`, when
`recvq` holds a line feed. -/
def pass (PB : Dispatcher) (mm : Nat) (recvq : List Byte) (u : Session) : Dispatched :=
  { recvq_before := recvq
    at_guard := u
    qpos := lineEnd recvq
    line := sanitize mm (content recvq)
    recvq_after := recvq.drop (lineEnd recvq)
    handed := account u (lineEnd recvq)
    returned := PB (sanitize mm (content recvq)) (account u (lineEnd recvq)) }

/-- The shape of the record of a run of the outer loop started on `recvq` and
`u`: every entry is the pass on the buffer and the state the entry before it
left, made with the condition of the loop true and a line feed in the buffer,
and an entry whose dispatcher call left the user quitting is the last one. -/
def Linked (PB : Dispatcher) (pm sm mm : Nat) : List Byte → Session → List Dispatched → Prop
  | _, _, [] => True
  | recvq, u, d :: ds =>
    u.CommandFloodPenalty < pm ∧ u.SendQSize < sm ∧ LF ∈ recvq ∧ d = pass PB mm recvq u ∧
    (d.returned.quitting = true → ds = []) ∧ Linked PB pm sm mm d.recvq_after d.returned ds

/-- The state the outer loop stopped on: the state the last dispatcher call
returned, or the state on entry when nothing was dispatched. -/
def stoppedAt (u : Session) : List Dispatched → Session
  | [] => u
  | d :: ds => stoppedAt d.returned ds

/-- How a run of the outer loop that stopped on the state `s` ends: on the
`return` after a dispatcher call that left the user quitting; on the `return`
for want of a line feed; or on the condition of the loop, with or without the
"Excess Flood" quit. -/
def Stopped (pm sm : Nat) (s : Session) (r : Outcome) : Prop :=
  (r.dispatched ≠ [] ∧ s.quitting = true ∧ r.user = s ∧ r.quit = none) ∨
  (s.CommandFloodPenalty < pm ∧ s.SendQSize < sm ∧ LF ∉ r.recvq ∧ r.user = s ∧ r.quit = none) ∨
  (¬ (s.CommandFloodPenalty < pm ∧ s.SendQSize < sm) ∧ pm ≤ s.CommandFloodPenalty ∧
    s.MyClass.fakelag = false ∧ r.user = QuitUser s ∧ r.quit = some "Excess Flood") ∨
  (¬ (s.CommandFloodPenalty < pm ∧ s.SendQSize < sm) ∧
    ¬ (pm ≤ s.CommandFloodPenalty ∧ s.MyClass.fakelag = false) ∧ r.user = s ∧ r.quit = none)

/-- The complete lines of a buffer: the runs of bytes that end at a line feed,
in order, each without its line feed. -/
def completeLines : List Byte → List (List Byte)
  | [] => []
  | c :: rest =>
    if c = LF then [] :: completeLines rest
    else
      match completeLines rest with
      | [] => []
      | l :: ls => (c :: l) :: ls

/-- The unterminated fragment of a buffer: what follows its last line feed (the
whole buffer when it has none). -/
def fragment : List Byte → List Byte
  | [] => []
  | c :: rest => if LF ∈ c :: rest then fragment rest else c :: rest

/-- The buffer made of the given lines, each followed by a line feed. -/
def joinLines : List (List Byte) → List Byte
  | [] => []
  | l :: ls => l ++ LF :: joinLines ls

/-- The state after the given raw lines have been accounted for and dispatched
one after the other. -/
def afterLines (PB : Dispatcher) (mm : Nat) : List (List Byte) → Session → Session
  | [], u => u
  | l :: ls, u => afterLines PB mm ls (PB (sanitize mm l) (account u (l.length + 1)))

/-- The condition of the outer loop holds before each of the given lines is
dispatched, and no dispatcher call leaves the user quitting. -/
def GateOpen (PB : Dispatcher) (pm sm mm : Nat) : List (List Byte) → Session → Prop
  | [], _ => True
  | l :: ls, u =>
    u.CommandFloodPenalty < pm ∧ u.SendQSize < sm ∧
    (PB (sanitize mm l) (account u (l.length + 1))).quitting = false ∧
    GateOpen PB pm sm mm ls (PB (sanitize mm l) (account u (l.length + 1)))

/-- The states a run over the given raw lines goes through, in order: the state
before each line (the one the condition of the outer loop is tested in before the
line is dispatched) and the state the last dispatcher call leaves. -/
def runStates (PB : Dispatcher) (mm : Nat) : List (List Byte) → Session → List Session
  | [], u => [u]
  | l :: ls, u => u :: runStates PB mm ls (PB (sanitize mm l) (account u (l.length + 1)))

/-- Modelled from the spec: the caller of `OnDataReady` (the socket read handler is
not among the sources) as the chunk-boundary property describes it: each
chunk is appended to `recvq` and `OnDataReady` is called after each append.
Returns the lines dispatched over all the calls, the final `recvq` and the final
state. -/
def feedChunks (PB : Dispatcher) (MaxLine : Nat) :
    List Byte → Session → List (List Byte) → List (List Byte) × List Byte × Session
  | recvq, u, [] => ([], recvq, u)
  | recvq, u, chunk :: chunks =>
    let r := OnDataReady PB MaxLine (recvq ++ chunk) u
    let rest := feedChunks PB MaxLine r.recvq r.user chunks
    (r.dispatched.map (fun d => d.line) ++ rest.1, rest.2.1, rest.2.2)

/-- The checks of the inference path of `SetClass` on one candidate, as the
specification lists them: the hook may force the answer; otherwise the class must
not be a purely named one, the registration state of the user must be the one the
class requires, the IP string or the real host must match the host pattern, the
reference count must be below the limit when there is one, the port must be one
of the ports when there are any, and the password must verify when one is
required and the registration is complete. -/
def Admission.passes (sv : Admission.Server) (u : Admission.LocalUser)
    (c : Admission.ConnectClass) : Bool :=
  match sv.OnSetConnectClass u c with
  | Admission.ModResult.MOD_RES_ALLOW => true
  | Admission.ModResult.MOD_RES_DENY => false
  | Admission.ModResult.MOD_RES_PASSTHRU =>
    decide (c.type ≠ Admission.ClassTypes.CC_NAMED) &&
    decide (c.registered.getD (decide (u.registered ≠ Admission.REG_NONE)) =
      decide (u.registered ≠ Admission.REG_NONE)) &&
    (sv.MatchCIDR u.GetIPString c.host || sv.MatchCIDR u.GetRealHost c.host) &&
    (decide (c.limit = 0) || decide (c.GetReferenceCount < c.limit)) &&
    (decide (c.ports = []) || decide (u.GetServerPort ∈ c.ports)) &&
    (!decide (u.registered ≠ Admission.REG_NONE) || decide (c.password = "") ||
      sv.PassCompare u c.password u.password c.hash)

/-! ## Sample inputs -/

/-- A connect class with a penalty threshold of 10, queues of 4096 bytes, and
`fakelag` off: it does not tolerate flooding. -/
def strictClass : ConnectClass :=
  { fakelag := false, GetRecvqMax := 4096, GetSendqSoftMax := 4096, GetPenaltyThreshold := 10 }

/-- A freshly connected user of `strictClass`: not an oper, every counter 0. -/
def guest : Session :=
  { quitting := false, oper := none, MyClass := strictClass, CommandFloodPenalty := 0,
    bytes_in := 0, cmds_in := 0, SendQSize := 0, stats_Recv := 0 }

/-- The user `guest` with 5000 on its penalty counter. -/
def lagging : Session := { guest with CommandFloodPenalty := 5000 }

/-- A dispatcher that changes nothing. -/
def idle : Dispatcher := fun _ u => u

/-- A dispatcher that adds `cost` to the penalty counter for every line. -/
def charging (cost : Nat) : Dispatcher :=
  fun _ u => { u with CommandFloodPenalty := u.CommandFloodPenalty + cost }

/-- The buffer `a\nb\n`. -/
def twoLines : List Byte := [97, 10, 98, 10]

/-- A buffer of eleven complete lines, each the letter `a`. -/
def elevenLines : List Byte := joinLines (List.replicate 11 [97])

/-- A buffer whose only line is 509 letters and two carriage returns: 511 bytes
before the line feed, one more than `maxmessage 512`. -/
def paddedLine : List Byte := List.replicate 509 97 ++ [13, 13, 10]

/-- A buffer of two lines, the first of 511 letters. -/
def longLine : List Byte := List.replicate 511 97 ++ [10, 98, 10]

/-- The pass `OnDataReady` makes on the buffer `a\r\nb` of `guest`. -/
def samplePass : Dispatched := pass idle (maxmessage 512) [97, 13, 10, 98] guest

/-- The pass `OnDataReady` makes on the buffer `\r\0\n` of `guest`. -/
def crNulPass : Dispatched := pass idle (maxmessage 512) [13, 0, 10] guest

/-- The pass `OnDataReady` makes on the buffer `a\n` of `lagging`. -/
def laggingPass : Dispatched := pass idle (maxmessage 512) [97, 10] lagging

/-- The pass `OnDataReady` makes on `paddedLine` for `guest`. -/
def paddedPass : Dispatched := pass idle (maxmessage 512) paddedLine guest

/-- The first pass `OnDataReady` makes on `longLine` for `guest`. -/
def longPass : Dispatched := pass idle (maxmessage 512) longLine guest

/-- A user that is not an oper, whose class has a hard sendq ceiling of 8 bytes
and whose send queue holds 6 bytes. -/
def writer : SendSide :=
  { uuid := "001AAAAAA", quitting := false, quitting_sendq := false, oper := none,
    GetSendqHardMax := 8, sendq := [1, 2, 3, 4, 5, 6], SQlist := [] }

/-- The user `writer` after an earlier refusal: `quitting_sendq` is set. -/
def refusedWriter : SendSide := { writer with quitting_sendq := true, SQlist := ["001AAAAAA"] }

/-- An allow class named "trusted" for the hosts 10.0.0.0/8, with no limit, no
port, no password and no ceiling. -/
def trustedClass : Admission.ConnectClass :=
  { type := Admission.ClassTypes.CC_ALLOW, name := "trusted", host := "10.0.0.0/8", limit := 0,
    GetReferenceCount := 0, ports := [], registered := none, password := "", hash := "",
    reason := none, GetMaxLocal := 0, GetMaxGlobal := 0, maxconnwarn := true,
    GetPingTime := 120 }

/-- The class `trustedClass` under the name "default" and for every host. -/
def defaultClass : Admission.ConnectClass := { trustedClass with name := "default", host := "*" }

/-- A second class named "trusted", for the hosts 192.168.0.0/16. -/
def trustedTwin : Admission.ConnectClass := { trustedClass with host := "192.168.0.0/16" }

/-- An allow class with a local ceiling of 2 for the mask 192.168.1.0/24. -/
def cloneClass : Admission.ConnectClass :=
  { trustedClass with name := "clones", host := "192.168.1.0/24", GetMaxLocal := 2 }

/-- A matcher that knows the prefix 10.0.0.0/8 for the address 10.1.2.3 and the
pattern that matches everything. -/
def sampleMatch (str mask : String) : Bool :=
  mask = "*" || (mask = "10.0.0.0/8" && str = "10.1.2.3")

/-- A server with the classes `trustedClass`, `trustedTwin` and `defaultClass`, in
this order, and no module. -/
def sampleServer : Admission.Server :=
  { Classes := [trustedClass, trustedTwin, defaultClass],
    OnSetConnectClass := fun _ _ => Admission.ModResult.MOD_RES_PASSTHRU,
    MatchCIDR := sampleMatch,
    PassCompare := fun _ data input _ => data = input }

/-- A server with no class at all. -/
def emptyServer : Admission.Server := { sampleServer with Classes := [] }

/-- A user connecting from 192.168.1.5 to port 6667, assigned to `cloneClass`. -/
def visitor : Admission.LocalUser :=
  { MyClass := some cloneClass, registered := 7, GetIPString := "192.168.1.5",
    GetRealHost := "192.168.1.5", GetServerPort := 6667, password := "", exempt := false,
    quitting := false, nping := 0 }

/-- The user `visitor` with the exempt flag set. -/
def exemptVisitor : Admission.LocalUser := { visitor with exempt := true }

/-- No module listens to `OnBuildNeighborList`. -/
def noModule : NeighborHook := fun _ chans exceptions => (chans, exceptions)

/-- Every user is local, nobody is quitting, and every stamp is 0. -/
def everybodyLocal : Users :=
  { IS_LOCAL := fun _ => true, quitting := fun _ => false, already_sent := fun _ => 0 }

/-- A module that, for the source 1, excludes the user 2 and includes the user 5,
leaving the source excluded. -/
def pickyModule : NeighborHook := fun _ chans _ =>
  (chans, { entries := [(1, false), (2, false), (5, true)], nodup := by decide })

/-- Every user is local and every stamp is 0; the user 2 is quitting, nobody else
is. -/
def departing : Users :=
  { IS_LOCAL := fun _ => true, quitting := fun x => decide (x = 2), already_sent := fun _ => 0 }

/-- A uuid list with the one key "001AAAAAA", of the user 7. -/
def oneUuid : UuidList := fun k => if k = "001AAAAAA" then some 7 else none

/-- A user on the host 10.0.0.1 with no displayed host of its own. -/
def plainHost : Hosts := { realhost := "10.0.0.1", displayhost := "" }

/-- The item of the account `bob` (98, 111, 98) with the tag `a b` (97, 32, 98). -/
def bobItem : AccountItem := { account := [98, 111, 98], tag := [97, 32, 98] }

/-- The user modes `i` (105) and `z` (122) are registered, neither with a
parameter, and both are set on the user. -/
def modesIZ : Nat → Option ModeHandler := fun i =>
  if i = 105 then some ⟨105, false, true, []⟩
  else if i = 122 then some ⟨122, false, true, []⟩
  else none

/-! ## Lemmas -/

theorem scanLine_spec (mm : Nat) (l : List Byte) : ∀ (q : Nat) (acc : List Byte),
    scanLine mm l q acc =
      if LF ∈ l then
        (true, q + (content l).length + 1, acc ++ (clean (content l)).take (mm - acc.length))
      else (false, q + l.length, acc ++ (clean l).take (mm - acc.length)) := by
  induction l with
  | nil => intro q acc; simp [scanLine, clean]
  | cons c rest ih =>
    intro q acc
    unfold scanLine
    by_cases hcr : c = CR
    · subst hcr
      have h1 : (CR : Byte) ≠ LF := by decide
      simp only [if_true]
      rw [ih]
      by_cases hm : LF ∈ rest
      · simp [content, clean, List.takeWhile_cons, h1, List.filter_cons, hm]; omega
      · simp [content, clean, List.takeWhile_cons, h1, List.filter_cons, hm, Ne.symm h1]; omega
    · by_cases hlf : c = LF
      · subst hlf
        simp [content, clean, hcr]
      · simp only [hcr, hlf, if_false]
        by_cases hlen : acc.length < mm
        · simp only [hlen, if_true]
          rw [ih]
          have hsub : mm - acc.length = (mm - (acc.length + 1)) + 1 := by omega
          by_cases hm : LF ∈ rest
          · simp [content, clean, List.takeWhile_cons, hlf, hcr, List.filter_cons, hm, hsub,
              List.take_succ_cons]
            omega
          · simp [content, clean, List.takeWhile_cons, hlf, hcr, List.filter_cons, hm, hsub,
              List.take_succ_cons, Ne.symm hlf]
            omega
        · simp only [hlen, if_false]
          rw [ih]
          have hsub : mm - acc.length = 0 := by omega
          by_cases hm : LF ∈ rest
          · simp [content, clean, List.takeWhile_cons, hlf, hcr, List.filter_cons, hm, hsub]
            omega
          · simp [content, clean, List.takeWhile_cons, hlf, hcr, List.filter_cons, hm, hsub,
              Ne.symm hlf]
            omega

theorem scanLine_start (mm : Nat) (recvq : List Byte) :
    scanLine mm recvq 0 [] =
      if LF ∈ recvq then (true, lineEnd recvq, sanitize mm (content recvq))
      else (false, recvq.length, sanitize mm recvq) := by
  rw [scanLine_spec]
  simp [lineEnd, sanitize]

theorem consume_succ (PB : Dispatcher) (pm sm mm fuel : Nat) (recvq : List Byte) (u : Session) :
    consume PB pm sm mm (fuel + 1) recvq u =
      if u.CommandFloodPenalty < pm ∧ u.SendQSize < sm then
        if LF ∈ recvq then
          if (pass PB mm recvq u).returned.quitting then
            ⟨(pass PB mm recvq u).recvq_after, (pass PB mm recvq u).returned,
              [pass PB mm recvq u], none⟩
          else
            ⟨(consume PB pm sm mm fuel (pass PB mm recvq u).recvq_after
                (pass PB mm recvq u).returned).recvq,
             (consume PB pm sm mm fuel (pass PB mm recvq u).recvq_after
                (pass PB mm recvq u).returned).user,
             pass PB mm recvq u :: (consume PB pm sm mm fuel (pass PB mm recvq u).recvq_after
                (pass PB mm recvq u).returned).dispatched,
             (consume PB pm sm mm fuel (pass PB mm recvq u).recvq_after
                (pass PB mm recvq u).returned).quit⟩
        else ⟨recvq, u, [], none⟩
      else if u.CommandFloodPenalty ≥ pm ∧ !u.MyClass.fakelag then
        ⟨recvq, QuitUser u, [], some "Excess Flood"⟩
      else ⟨recvq, u, [], none⟩ := by
  rw [consume, scanLine_start]
  by_cases hg : u.CommandFloodPenalty < pm ∧ u.SendQSize < sm
  · by_cases hm : LF ∈ recvq
    · simp only [hg, hm, and_self, if_true, pass]
    · simp only [hg, hm, and_self, if_true, if_false]
  · simp only [hg, if_false]

theorem content_length_lt {recvq : List Byte} (h : LF ∈ recvq) :
    (content recvq).length < recvq.length := by
  induction recvq with
  | nil => simp at h
  | cons c rest ih =>
    by_cases hc : c = LF
    · simp [content, List.takeWhile_cons, hc]
    · have : LF ∈ rest := by
        rcases List.mem_cons.mp h with h | h
        · exact absurd h.symm hc
        · exact h
      have := ih this
      simp [content, List.takeWhile_cons, hc] at this ⊢
      omega

theorem recvq_split {recvq : List Byte} (h : LF ∈ recvq) :
    recvq = content recvq ++ LF :: recvq.drop (lineEnd recvq) := by
  induction recvq with
  | nil => simp at h
  | cons c rest ih =>
    by_cases hc : c = LF
    · simp [content, lineEnd, List.takeWhile_cons, hc]
    · have : LF ∈ rest := by
        rcases List.mem_cons.mp h with h | h
        · exact absurd h.symm hc
        · exact h
      have := ih this
      simp [content, lineEnd, List.takeWhile_cons, hc] at this ⊢
      exact this

theorem LF_not_mem_content (recvq : List Byte) : LF ∉ content recvq := by
  intro h
  have := List.mem_takeWhile_imp h
  simp at this

theorem consume_fuel (PB : Dispatcher) (pm sm mm : Nat) :
    ∀ (fuel fuel2 : Nat) (recvq : List Byte) (u : Session),
      recvq.length < fuel → recvq.length < fuel2 →
      consume PB pm sm mm fuel recvq u = consume PB pm sm mm fuel2 recvq u := by
  intro fuel
  induction fuel with
  | zero => intro fuel2 recvq u h; omega
  | succ n ih =>
    intro fuel2 recvq u h1 h2
    obtain ⟨m, rfl⟩ : ∃ m, fuel2 = m + 1 := ⟨fuel2 - 1, by omega⟩
    rw [consume_succ, consume_succ]
    by_cases hm : LF ∈ recvq
    · have hlt := content_length_lt hm
      have hd : (recvq.drop (lineEnd recvq)).length < recvq.length := by
        simp [lineEnd]; omega
      rw [ih m (pass PB mm recvq u).recvq_after (pass PB mm recvq u).returned
        (by simp only [pass]; omega) (by simp only [pass]; omega)]
    · simp only [hm, if_false]

theorem consume_linked (PB : Dispatcher) (pm sm mm : Nat) :
    ∀ (fuel : Nat) (recvq : List Byte) (u : Session),
      Linked PB pm sm mm recvq u (consume PB pm sm mm fuel recvq u).dispatched := by
  intro fuel
  induction fuel with
  | zero => intro recvq u; simp [consume, Linked]
  | succ n ih =>
    intro recvq u
    rw [consume_succ]
    by_cases hg : u.CommandFloodPenalty < pm ∧ u.SendQSize < sm
    · by_cases hm : LF ∈ recvq
      · by_cases hq : (pass PB mm recvq u).returned.quitting = true
        · simp [hg, hm, hq, Linked]
        · rw [if_pos hg, if_pos hm, if_neg hq]
          exact ⟨hg.1, hg.2, hm, rfl, fun h => absurd h hq, ih _ _⟩
      · simp [hg, hm, Linked]
    · by_cases hf : u.CommandFloodPenalty ≥ pm ∧ (!u.MyClass.fakelag) = true
      · simp only [hg, hf, and_self, if_true, if_false, Linked]
      · simp only [hg, hf, if_false, Linked]

theorem Linked.split {PB : Dispatcher} {pm sm mm : Nat} :
    ∀ (pre : List Dispatched) {recvq : List Byte} {u : Session} {d : Dispatched}
      {post : List Dispatched},
      Linked PB pm sm mm recvq u (pre ++ d :: post) →
      (∃ r0 u0, d = pass PB mm r0 u0 ∧ LF ∈ r0 ∧ u0.CommandFloodPenalty < pm ∧
          u0.SendQSize < sm ∧ (u.quitting = false → u0.quitting = false) ∧
          (pre = [] → r0 = recvq ∧ u0 = u)) ∧
        (d.returned.quitting = true → post = []) ∧
        Linked PB pm sm mm d.recvq_after d.returned post := by
  intro pre
  induction pre with
  | nil =>
    intro recvq u d post h
    simp only [List.nil_append, Linked] at h
    obtain ⟨h1, h2, h3, h4, h5, h6⟩ := h
    exact ⟨⟨recvq, u, h4, h3, h1, h2, id, fun _ => ⟨rfl, rfl⟩⟩, h5, h6⟩
  | cons e pre ih =>
    intro recvq u d post h
    simp only [List.cons_append, Linked] at h
    obtain ⟨h1, h2, h3, h4, h5, h6⟩ := h
    obtain ⟨⟨r0, u0, k1, k2, k3, k4, k5, _⟩, k6, k7⟩ := ih h6
    refine ⟨⟨r0, u0, k1, k2, k3, k4, ?_, by simp⟩, k6, k7⟩
    intro _
    apply k5
    cases hq : e.returned.quitting with
    | false => rfl
    | true => simpa using h5 hq

theorem Linked.mem {PB : Dispatcher} {pm sm mm : Nat} {recvq : List Byte} {u : Session}
    {tr : List Dispatched} {d : Dispatched} (h : Linked PB pm sm mm recvq u tr) (hd : d ∈ tr) :
    ∃ r0 u0, d = pass PB mm r0 u0 ∧ LF ∈ r0 ∧ u0.CommandFloodPenalty < pm ∧
      u0.SendQSize < sm ∧ (u.quitting = false → u0.quitting = false) := by
  obtain ⟨pre, post, rfl⟩ := List.append_of_mem hd
  obtain ⟨⟨r0, u0, k1, k2, k3, k4, k5, _⟩, _, _⟩ := Linked.split pre h
  exact ⟨r0, u0, k1, k2, k3, k4, k5⟩

theorem pass_returned (PB : Dispatcher) (mm : Nat) (r : List Byte) (u : Session) :
    (pass PB mm r u).returned = PB (pass PB mm r u).line (pass PB mm r u).handed := rfl

theorem OnDataReady_linked (PB : Dispatcher) (MaxLine : Nat) (recvq : List Byte) (u : Session) :
    Linked PB (penaltymax u) (sendqmax u) (maxmessage MaxLine) recvq u
      (OnDataReady PB MaxLine recvq u).dispatched := by
  unfold OnDataReady
  split
  · simp [Linked]
  · split
    · simp [Linked]
    · exact consume_linked _ _ _ _ _ _ _

theorem OnDataReady_quitting (PB : Dispatcher) (MaxLine : Nat) (recvq : List Byte) (u : Session)
    (h : u.quitting = true) : OnDataReady PB MaxLine recvq u = ⟨recvq, u, [], none⟩ := by
  simp [OnDataReady, h]

theorem consume_erases (PB : Dispatcher) (pm sm mm : Nat) :
    ∀ (fuel : Nat) (recvq : List Byte) (u : Session),
      ∃ pre, recvq = pre ++ (consume PB pm sm mm fuel recvq u).recvq ∧
        pre.count LF = (consume PB pm sm mm fuel recvq u).dispatched.length ∧
        ((consume PB pm sm mm fuel recvq u).dispatched = [] → pre = []) ∧
        ((consume PB pm sm mm fuel recvq u).dispatched ≠ [] → pre.getLast? = some LF) := by
  intro fuel
  induction fuel with
  | zero => intro recvq u; exact ⟨[], by simp [consume]⟩
  | succ n ih =>
    intro recvq u
    rw [consume_succ]
    by_cases hg : u.CommandFloodPenalty < pm ∧ u.SendQSize < sm
    · by_cases hm : LF ∈ recvq
      · have hsplit := recvq_split hm
        have hc : (content recvq).count LF = 0 :=
          List.count_eq_zero.mpr (LF_not_mem_content recvq)
        by_cases hq : (pass PB mm recvq u).returned.quitting = true
        · rw [if_pos hg, if_pos hm, if_pos hq]
          refine ⟨content recvq ++ [LF], ?_, ?_, ?_, ?_⟩
          · simpa [pass] using hsplit
          · simp [List.count_append, hc]
          · simp
          · simp
        · rw [if_pos hg, if_pos hm, if_neg hq]
          obtain ⟨pre1, h1, h2, h3, h4⟩ :=
            ih (pass PB mm recvq u).recvq_after (pass PB mm recvq u).returned
          refine ⟨content recvq ++ LF :: pre1, ?_, ?_, ?_, ?_⟩
          · simp only [List.append_assoc, List.cons_append]
            rw [← h1]
            simpa [pass] using hsplit
          · simp [List.count_append, hc, h2]
          · simp
          · intro _
            by_cases he : (consume PB pm sm mm n (pass PB mm recvq u).recvq_after
                (pass PB mm recvq u).returned).dispatched = []
            · simp [h3 he]
            · have := h4 he
              cases pre1 with
              | nil => simp at this
              | cons x xs =>
                rw [List.getLast?_append_of_ne_nil _ (by simp), List.getLast?_cons_cons]
                exact this
      · rw [if_pos hg, if_neg hm]; exact ⟨[], by simp⟩
    · rw [if_neg hg]
      split <;> exact ⟨[], by simp⟩

theorem QuitUser_bytes_in (u : Session) : (QuitUser u).bytes_in = u.bytes_in := by
  unfold QuitUser; split <;> rfl

theorem QuitUser_cmds_in (u : Session) : (QuitUser u).cmds_in = u.cmds_in := by
  unfold QuitUser; split <;> rfl

theorem consume_no_LF (PB : Dispatcher) (pm sm mm : Nat) (fuel : Nat) (recvq : List Byte)
    (u : Session) (h : LF ∉ recvq) :
    (consume PB pm sm mm fuel recvq u).dispatched = [] ∧
    (consume PB pm sm mm fuel recvq u).recvq = recvq ∧
    (consume PB pm sm mm fuel recvq u).user.bytes_in = u.bytes_in ∧
    (consume PB pm sm mm fuel recvq u).user.cmds_in = u.cmds_in := by
  cases fuel with
  | zero => simp [consume]
  | succ n =>
    rw [consume_succ]
    by_cases hg : u.CommandFloodPenalty < pm ∧ u.SendQSize < sm
    · rw [if_pos hg, if_neg h]; simp
    · rw [if_neg hg]
      split <;> simp [QuitUser_bytes_in, QuitUser_cmds_in]

theorem Linked.chain {PB : Dispatcher} {pm sm mm : Nat} :
    ∀ (pre : List Dispatched) {recvq : List Byte} {u : Session} {d e : Dispatched}
      {post : List Dispatched},
      Linked PB pm sm mm recvq u (pre ++ d :: e :: post) →
      e.recvq_before = d.recvq_after ∧ e.at_guard = d.returned := by
  intro pre recvq u d e post h
  have h2 := (Linked.split pre h).2.2
  simp only [Linked] at h2
  obtain ⟨_, _, _, h4, _, _⟩ := h2
  rw [h4]
  exact ⟨rfl, rfl⟩

theorem pass_facts (PB : Dispatcher) (mm : Nat) (r : List Byte) (u : Session) (h : LF ∈ r) :
    (pass PB mm r u).recvq_before = r ∧ (pass PB mm r u).at_guard = u ∧
    (pass PB mm r u).qpos = (content r).length + 1 ∧
    (pass PB mm r u).line = sanitize mm (content r) ∧
    r = content r ++ LF :: (pass PB mm r u).recvq_after ∧
    (pass PB mm r u).recvq_after.length + (pass PB mm r u).qpos = r.length ∧
    (pass PB mm r u).handed = account u ((content r).length + 1) := by
  have hs := recvq_split h
  have hl := content_length_lt h
  refine ⟨rfl, rfl, rfl, rfl, hs, ?_, rfl⟩
  simp only [pass, lineEnd, List.length_drop]
  omega

theorem clean_getElem? : ∀ (l : List Byte) (i : Nat),
    CR ∉ l.take i → l[i]? = some NUL → (clean l)[i]? = some SPACE := by
  intro l
  induction l with
  | nil => intro i _ h; simp at h
  | cons x xs ih =>
    intro i hcr h
    cases i with
    | zero =>
      simp only [List.getElem?_cons_zero, Option.some.injEq] at h
      subst h
      have h0 : (NUL : Byte) ≠ CR := by decide
      simp [clean, List.filter_cons, h0]
    | succ j =>
      simp only [List.take_succ_cons, List.mem_cons, not_or] at hcr
      simp only [List.getElem?_cons_succ] at h
      have hx : x ≠ CR := fun e => hcr.1 e.symm
      have := ih j hcr.2 h
      simpa [clean, List.filter_cons, hx] using this

theorem CR_not_mem_clean (l : List Byte) : CR ∉ clean l := by
  intro h
  simp only [clean, List.mem_map, List.mem_filter] at h
  obtain ⟨a, ⟨_, ha⟩, h2⟩ := h
  by_cases h0 : a = NUL
  · simp only [h0, if_true] at h2
    exact absurd h2 (by decide)
  · simp only [h0, if_false] at h2
    simp [h2] at ha

theorem CR_not_mem_sanitize (mm : Nat) (l : List Byte) : CR ∉ sanitize mm l :=
  fun h => CR_not_mem_clean l (List.mem_of_mem_take h)

theorem clean_length (l : List Byte) :
    (clean l).length = (l.filter (fun c => c ≠ CR)).length := by
  simp [clean]

theorem first_pass_mem (PB : Dispatcher) (MaxLine : Nat) (recvq : List Byte) (u : Session)
    (hq : u.quitting = false)
    (hr : ¬ (recvq.length > u.MyClass.GetRecvqMax ∧
      (!HasPrivPermission u "users/flood/increased-buffers") = true))
    (hp : u.CommandFloodPenalty < penaltymax u) (hs : u.SendQSize < sendqmax u)
    (hlf : LF ∈ recvq) :
    pass PB (maxmessage MaxLine) recvq u ∈ (OnDataReady PB MaxLine recvq u).dispatched := by
  unfold OnDataReady
  rw [if_neg (by simp [hq]), if_neg hr, consume_succ, if_pos ⟨hp, hs⟩, if_pos hlf]
  split <;> simp

theorem consume_stopped (PB : Dispatcher) (pm sm mm : Nat) :
    ∀ (fuel : Nat) (recvq : List Byte) (u : Session), recvq.length < fuel →
      Stopped pm sm (stoppedAt u (consume PB pm sm mm fuel recvq u).dispatched)
        (consume PB pm sm mm fuel recvq u) := by
  intro fuel
  induction fuel with
  | zero => intro recvq u h; omega
  | succ n ih =>
    intro recvq u hlen
    rw [consume_succ]
    by_cases hg : u.CommandFloodPenalty < pm ∧ u.SendQSize < sm
    · by_cases hm : LF ∈ recvq
      · by_cases hq : (pass PB mm recvq u).returned.quitting = true
        · rw [if_pos hg, if_pos hm, if_pos hq]
          exact Or.inl ⟨by simp, hq, rfl, rfl⟩
        · rw [if_pos hg, if_pos hm, if_neg hq]
          have hlt := content_length_lt hm
          have hd : (pass PB mm recvq u).recvq_after.length < n := by
            simp only [pass, lineEnd, List.length_drop]; omega
          rcases ih _ (pass PB mm recvq u).returned hd with h | h | h | h
          · exact Or.inl ⟨by simp, h.2.1, h.2.2.1, h.2.2.2⟩
          · exact Or.inr (Or.inl h)
          · exact Or.inr (Or.inr (Or.inl h))
          · exact Or.inr (Or.inr (Or.inr h))
      · rw [if_pos hg, if_neg hm]
        exact Or.inr (Or.inl ⟨hg.1, hg.2, hm, rfl, rfl⟩)
    · rw [if_neg hg]
      by_cases hf : u.CommandFloodPenalty ≥ pm ∧ (!u.MyClass.fakelag) = true
      · rw [if_pos hf]
        exact Or.inr (Or.inr (Or.inl ⟨hg, hf.1, by simpa using hf.2, rfl, rfl⟩))
      · rw [if_neg hf]
        refine Or.inr (Or.inr (Or.inr ⟨hg, ?_, rfl, rfl⟩))
        intro h
        have h2 : u.MyClass.fakelag = false := h.2
        exact hf ⟨h.1, by simp [h2]⟩

theorem penaltymax_of_no_priv (u : Session)
    (h : HasPrivPermission u "users/flood/no-fakelag" = false) :
    penaltymax u = (u.MyClass.GetPenaltyThreshold * 1000) % 2 ^ 64 := by
  unfold penaltymax
  rw [h]
  rfl

theorem sendqmax_of_no_priv (u : Session)
    (h : HasPrivPermission u "users/flood/increased-buffers" = false) :
    sendqmax u = u.MyClass.GetSendqSoftMax := by
  unfold sendqmax
  rw [h]
  rfl

theorem QuitUser_quitting (u : Session) : (QuitUser u).quitting = true := by
  unfold QuitUser
  split
  · assumption
  · rfl

theorem OnDataReady_stopped (PB : Dispatcher) (MaxLine : Nat) (recvq : List Byte) (u : Session)
    (hq : u.quitting = false)
    (hr : ¬ (recvq.length > u.MyClass.GetRecvqMax ∧
      (!HasPrivPermission u "users/flood/increased-buffers") = true)) :
    Stopped (penaltymax u) (sendqmax u)
      (stoppedAt u (OnDataReady PB MaxLine recvq u).dispatched)
      (OnDataReady PB MaxLine recvq u) := by
  unfold OnDataReady
  rw [if_neg (by simp [hq]), if_neg hr]
  exact consume_stopped _ _ _ _ _ _ _ (Nat.lt_succ_self _)

theorem content_append_LF {a : List Byte} (h : LF ∉ a) (b : List Byte) :
    content (a ++ LF :: b) = a ∧ (a ++ LF :: b).drop (lineEnd (a ++ LF :: b)) = b := by
  have hc : content (a ++ LF :: b) = a := by
    induction a with
    | nil => simp [content]
    | cons x xs ih =>
      simp only [List.mem_cons, not_or] at h
      have hx : x ≠ LF := fun e => h.1 e.symm
      have := ih h.2
      simp only [content] at this ⊢
      simp only [List.cons_append, List.takeWhile_cons, hx, ne_eq, not_false_eq_true,
        decide_True, if_true, this]
  refine ⟨hc, ?_⟩
  rw [lineEnd, hc]
  simp

theorem completeLines_no_LF {a : List Byte} (h : LF ∉ a) :
    completeLines a = [] ∧ fragment a = a := by
  induction a with
  | nil => simp [completeLines, fragment]
  | cons x xs ih =>
    have h2 := h
    simp only [List.mem_cons, not_or] at h2
    have hx : x ≠ LF := fun e => h2.1 e.symm
    refine ⟨?_, ?_⟩
    · simp [completeLines, hx, (ih h2.2).1]
    · simp only [fragment, if_neg h]

theorem completeLines_append_LF {a : List Byte} (h : LF ∉ a) (b : List Byte) :
    completeLines (a ++ LF :: b) = a :: completeLines b ∧
    fragment (a ++ LF :: b) = fragment b := by
  induction a with
  | nil => simp [completeLines, fragment]
  | cons x xs ih =>
    simp only [List.mem_cons, not_or] at h
    have hx : x ≠ LF := fun e => h.1 e.symm
    obtain ⟨h1, h2⟩ := ih h.2
    refine ⟨?_, ?_⟩
    · simp [completeLines, hx, h1]
    · have hm : LF ∈ x :: (xs ++ LF :: b) := by simp
      show fragment (x :: (xs ++ LF :: b)) = fragment b
      rw [fragment, if_pos hm]
      exact h2

theorem lines_of_recvq : ∀ (n : Nat) (recvq : List Byte), recvq.length < n →
    recvq = joinLines (completeLines recvq) ++ fragment recvq ∧
    (∀ l ∈ completeLines recvq, LF ∉ l) ∧ LF ∉ fragment recvq := by
  intro n
  induction n with
  | zero => intro recvq h; omega
  | succ n ih =>
    intro recvq hlen
    by_cases hm : LF ∈ recvq
    · have hs := recvq_split hm
      have hlt := content_length_lt hm
      have hd : (recvq.drop (lineEnd recvq)).length < n := by
        simp only [lineEnd, List.length_drop]; omega
      obtain ⟨h1, h2, h3⟩ := ih _ hd
      obtain ⟨k1, k2⟩ := completeLines_append_LF (LF_not_mem_content recvq)
        (recvq.drop (lineEnd recvq))
      rw [← hs] at k1 k2
      refine ⟨?_, ?_, ?_⟩
      · rw [k1, k2, joinLines, List.append_assoc, List.cons_append, ← h1]
        exact hs
      · intro l hl
        rw [k1] at hl
        rcases List.mem_cons.mp hl with e | e
        · rw [e]; exact LF_not_mem_content recvq
        · exact h2 l e
      · rw [k2]; exact h3
    · obtain ⟨k1, k2⟩ := completeLines_no_LF hm
      rw [k1, k2]
      exact ⟨by simp [joinLines], by simp, hm⟩

theorem consume_lines (PB : Dispatcher) (pm sm mm : Nat) :
    ∀ (lines : List (List Byte)) (rest : List Byte) (u : Session) (fuel fuel2 : Nat),
      (∀ l ∈ lines, LF ∉ l) → GateOpen PB pm sm mm lines u →
      (joinLines lines ++ rest).length < fuel → rest.length < fuel2 →
      (consume PB pm sm mm fuel (joinLines lines ++ rest) u).recvq =
        (consume PB pm sm mm fuel2 rest (afterLines PB mm lines u)).recvq ∧
      (consume PB pm sm mm fuel (joinLines lines ++ rest) u).user =
        (consume PB pm sm mm fuel2 rest (afterLines PB mm lines u)).user ∧
      (consume PB pm sm mm fuel (joinLines lines ++ rest) u).quit =
        (consume PB pm sm mm fuel2 rest (afterLines PB mm lines u)).quit ∧
      (consume PB pm sm mm fuel (joinLines lines ++ rest) u).dispatched.map (fun d => d.line) =
        lines.map (sanitize mm) ++
        (consume PB pm sm mm fuel2 rest (afterLines PB mm lines u)).dispatched.map
          (fun d => d.line) := by
  intro lines
  induction lines with
  | nil =>
    intro rest u fuel fuel2 _ _ h1 h2
    simp only [joinLines, List.nil_append] at h1 ⊢
    rw [consume_fuel PB pm sm mm fuel fuel2 rest u h1 h2]
    simp [afterLines]
  | cons l ls ih =>
    intro rest u fuel fuel2 hlf hopen h1 h2
    obtain ⟨n, rfl⟩ : ∃ n, fuel = n + 1 := ⟨fuel - 1, by omega⟩
    have hl : LF ∉ l := hlf l (List.mem_cons_self _ _)
    obtain ⟨hg1, hg2, hg3, hg4⟩ := hopen
    have hrw : joinLines (l :: ls) ++ rest = l ++ LF :: (joinLines ls ++ rest) := by
      simp [joinLines]
    rw [hrw] at h1 ⊢
    obtain ⟨hc, hdrop⟩ := content_append_LF hl (joinLines ls ++ rest)
    have hmem : LF ∈ l ++ LF :: (joinLines ls ++ rest) := by simp
    have hp1 : (pass PB mm (l ++ LF :: (joinLines ls ++ rest)) u).returned =
        PB (sanitize mm l) (account u (l.length + 1)) := by
      simp only [pass, lineEnd, hc]
    have hp2 : (pass PB mm (l ++ LF :: (joinLines ls ++ rest)) u).recvq_after =
        joinLines ls ++ rest := hdrop
    have hp3 : (pass PB mm (l ++ LF :: (joinLines ls ++ rest)) u).line = sanitize mm l := by
      simp only [pass, hc]
    rw [consume_succ, if_pos ⟨hg1, hg2⟩, if_pos hmem, hp1, if_neg (by simp [hg3]), hp2]
    have hlen : (joinLines ls ++ rest).length < n := by
      simp only [List.length_append, List.length_cons] at h1 ⊢
      omega
    obtain ⟨i1, i2, i3, i4⟩ := ih rest (PB (sanitize mm l) (account u (l.length + 1))) n fuel2
      (fun x hx => hlf x (List.mem_cons_of_mem _ hx)) hg4 hlen h2
    refine ⟨i1, i2, i3, ?_⟩
    simp only [List.map_cons, hp3, i4, List.cons_append, afterLines]

theorem charging_gate (c pm sm mm : Nat) (hc : 0 < c) :
    ∀ (lines : List (List Byte)) (u : Session), u.quitting = false → u.SendQSize < sm →
      u.CommandFloodPenalty + lines.length * c ≤ pm →
      GateOpen (charging c) pm sm mm lines u ∧
      (afterLines (charging c) mm lines u).CommandFloodPenalty =
        u.CommandFloodPenalty + lines.length * c ∧
      (afterLines (charging c) mm lines u).quitting = false ∧
      (afterLines (charging c) mm lines u).MyClass = u.MyClass ∧
      (afterLines (charging c) mm lines u).SendQSize = u.SendQSize := by
  intro lines
  induction lines with
  | nil => intro u hq _ _; simp [GateOpen, afterLines, hq]
  | cons l ls ih =>
    intro u hq hs hp
    have hstep : u.CommandFloodPenalty + c + ls.length * c ≤ pm := by
      have : (ls.length + 1) * c = ls.length * c + c := Nat.succ_mul _ _
      simp only [List.length_cons] at hp
      omega
    have hlt : u.CommandFloodPenalty < pm := by omega
    obtain ⟨i1, i2, i3, i4, i5⟩ :=
      ih (charging c (sanitize mm l) (account u (l.length + 1))) hq hs hstep
    refine ⟨⟨hlt, hs, hq, i1⟩, ?_, i3, i4, i5⟩
    rw [afterLines, i2]
    have : (ls.length + 1) * c = ls.length * c + c := Nat.succ_mul _ _
    simp only [List.length_cons]
    show u.CommandFloodPenalty + c + ls.length * c = _
    omega

theorem completeLines_joinLines : ∀ (L : List (List Byte)) (x : List Byte),
    (∀ l ∈ L, LF ∉ l) →
    completeLines (joinLines L ++ x) = L ++ completeLines x ∧
    fragment (joinLines L ++ x) = fragment x := by
  intro L
  induction L with
  | nil => intro x _; simp [joinLines]
  | cons l ls ih =>
    intro x h
    have hl : LF ∉ l := h l (List.mem_cons_self _ _)
    obtain ⟨i1, i2⟩ := ih x (fun y hy => h y (List.mem_cons_of_mem _ hy))
    have hrw : joinLines (l :: ls) ++ x = l ++ LF :: (joinLines ls ++ x) := by
      simp [joinLines]
    obtain ⟨k1, k2⟩ := completeLines_append_LF hl (joinLines ls ++ x)
    rw [hrw, k1, k2, i1, i2]
    exact ⟨rfl, rfl⟩

theorem completeLines_append (a b : List Byte) :
    completeLines (a ++ b) = completeLines a ++ completeLines (fragment a ++ b) ∧
    fragment (a ++ b) = fragment (fragment a ++ b) ∧
    (fragment a).length ≤ a.length := by
  obtain ⟨h1, h2, _⟩ := lines_of_recvq (a.length + 1) a (Nat.lt_succ_self _)
  obtain ⟨k1, k2⟩ := completeLines_joinLines (completeLines a) (fragment a ++ b) h2
  have hab : a ++ b = joinLines (completeLines a) ++ (fragment a ++ b) := by
    rw [← List.append_assoc, ← h1]
  refine ⟨?_, ?_, ?_⟩
  · rw [hab, k1]
  · rw [hab, k2]
  · have := congrArg List.length h1
    rw [List.length_append] at this
    omega

theorem afterLines_append (PB : Dispatcher) (mm : Nat) :
    ∀ (A B : List (List Byte)) (u : Session),
      afterLines PB mm (A ++ B) u = afterLines PB mm B (afterLines PB mm A u) := by
  intro A
  induction A with
  | nil => intro B u; rfl
  | cons l ls ih => intro B u; simp only [List.cons_append, afterLines]; exact ih B _

theorem AddWriteBuf_flagged (s : SendSide) (data : List Byte) (h : s.quitting_sendq = true) :
    AddWriteBuf s data = s := by
  simp [AddWriteBuf, h]

theorem Admission.inferScan_cons (sv : Admission.Server) (u : Admission.LocalUser)
    (c : Admission.ConnectClass) (rest : List Admission.ConnectClass) :
    Admission.inferScan sv u (c :: rest) =
      if Admission.passes sv u c = true then (some c, [c])
      else ((Admission.inferScan sv u rest).1, c :: (Admission.inferScan sv u rest).2) := by
  unfold Admission.passes
  rw [Admission.inferScan]
  cases hh : sv.OnSetConnectClass u c with
  | MOD_RES_DENY => simp
  | MOD_RES_ALLOW => simp
  | MOD_RES_PASSTHRU =>
    simp only
    by_cases h1 : c.type = Admission.ClassTypes.CC_NAMED
    · simp [h1]
    rw [if_neg h1]
    by_cases h2 : c.registered.getD (decide (u.registered ≠ Admission.REG_NONE)) =
        decide (u.registered ≠ Admission.REG_NONE)
    swap
    · rw [if_pos h2]
      have : decide (c.registered.getD (decide (u.registered ≠ Admission.REG_NONE)) =
          decide (u.registered ≠ Admission.REG_NONE)) = false := decide_eq_false h2
      rw [this]; simp
    rw [if_neg (not_not.mpr h2)]
    by_cases h3 : (!sv.MatchCIDR u.GetIPString c.host) = true ∧
        (!sv.MatchCIDR u.GetRealHost c.host) = true
    · rw [if_pos h3]
      have a1 : sv.MatchCIDR u.GetIPString c.host = false := by simpa using h3.1
      have a2 : sv.MatchCIDR u.GetRealHost c.host = false := by simpa using h3.2
      rw [a1, a2]; simp
    rw [if_neg h3]
    have h3b : (sv.MatchCIDR u.GetIPString c.host || sv.MatchCIDR u.GetRealHost c.host) = true := by
      cases a1 : sv.MatchCIDR u.GetIPString c.host with
      | true => rfl
      | false =>
        cases a2 : sv.MatchCIDR u.GetRealHost c.host with
        | true => rfl
        | false => exact absurd ⟨by simp [a1], by simp [a2]⟩ h3
    by_cases h4 : c.limit ≠ 0 ∧ c.GetReferenceCount ≥ c.limit
    · rw [if_pos h4]
      have a1 : decide (c.limit = 0) = false := decide_eq_false h4.1
      have a2 : decide (c.GetReferenceCount < c.limit) = false :=
        decide_eq_false (Nat.not_lt.mpr h4.2)
      rw [a1, a2]; simp
    rw [if_neg h4]
    have h4b : (decide (c.limit = 0) || decide (c.GetReferenceCount < c.limit)) = true := by
      by_cases a1 : c.limit = 0
      · simp [a1]
      · have : c.GetReferenceCount < c.limit := Nat.lt_of_not_le (fun h => h4 ⟨a1, h⟩)
        simp [this]
    by_cases h5 : c.ports ≠ [] ∧ u.GetServerPort ∉ c.ports
    · rw [if_pos h5]
      have a1 : decide (c.ports = []) = false := decide_eq_false h5.1
      have a2 : decide (u.GetServerPort ∈ c.ports) = false := decide_eq_false h5.2
      rw [a1, a2]; simp
    rw [if_neg h5]
    have h5b : (decide (c.ports = []) || decide (u.GetServerPort ∈ c.ports)) = true := by
      by_cases a1 : c.ports = []
      · simp [a1]
      · have : u.GetServerPort ∈ c.ports := Classical.not_not.mp (fun h => h5 ⟨a1, h⟩)
        simp [this]
    by_cases h6 : decide (u.registered ≠ Admission.REG_NONE) = true ∧ c.password ≠ "" ∧
        (!sv.PassCompare u c.password u.password c.hash) = true
    · rw [if_pos h6]
      have a1 : decide (c.password = "") = false := decide_eq_false h6.2.1
      have a2 : sv.PassCompare u c.password u.password c.hash = false := by simpa using h6.2.2
      rw [h6.1, a1, a2]; simp
    rw [if_neg h6]
    have h6b : (!decide (u.registered ≠ Admission.REG_NONE) || decide (c.password = "") ||
        sv.PassCompare u c.password u.password c.hash) = true := by
      cases a1 : decide (u.registered ≠ Admission.REG_NONE) with
      | false => rfl
      | true =>
        by_cases a2 : c.password = ""
        · simp [a2]
        · cases a3 : sv.PassCompare u c.password u.password c.hash with
          | true => simp
          | false => exact absurd ⟨a1, a2, by simp [a3]⟩ h6
    have h1b : decide (c.type ≠ Admission.ClassTypes.CC_NAMED) = true := decide_eq_true h1
    have h2b : decide (c.registered.getD (decide (u.registered ≠ Admission.REG_NONE)) =
        decide (u.registered ≠ Admission.REG_NONE)) = true := decide_eq_true h2
    rw [h1b, h2b, h3b, h4b, h5b, h6b]
    rfl

theorem Admission.inferScan_spec (sv : Admission.Server) (u : Admission.LocalUser) :
    ∀ (cs : List Admission.ConnectClass),
      (∀ c, (Admission.inferScan sv u cs).1 = some c →
        ∃ pre post, cs = pre ++ c :: post ∧ Admission.passes sv u c = true ∧
          (∀ x ∈ pre, Admission.passes sv u x = false) ∧
          (Admission.inferScan sv u cs).2 = pre ++ [c]) ∧
      ((Admission.inferScan sv u cs).1 = none ↔ ∀ x ∈ cs, Admission.passes sv u x = false) ∧
      ((Admission.inferScan sv u cs).1 = none → (Admission.inferScan sv u cs).2 = cs) := by
  intro cs
  induction cs with
  | nil =>
    refine ⟨?_, ?_, ?_⟩
    · intro c h; simp [Admission.inferScan] at h
    · simp [Admission.inferScan]
    · intro _; rfl
  | cons c rest ih =>
    obtain ⟨i1, i2, i3⟩ := ih
    rw [Admission.inferScan_cons]
    by_cases hp : Admission.passes sv u c = true
    · rw [if_pos hp]
      refine ⟨?_, ?_, ?_⟩
      · intro d hd
        simp only [Option.some.injEq] at hd
        subst hd
        exact ⟨[], rest, rfl, hp, by simp, rfl⟩
      · constructor
        · intro h; simp at h
        · intro h
          have := h c (List.mem_cons_self _ _)
          rw [hp] at this
          exact absurd this (by decide)
      · intro h; simp at h
    · rw [if_neg hp]
      have hf : Admission.passes sv u c = false := by simpa using hp
      refine ⟨?_, ?_, ?_⟩
      · intro d hd
        obtain ⟨pre, post, h1, h2, h3, h4⟩ := i1 d hd
        refine ⟨c :: pre, post, by rw [h1]; rfl, h2, ?_, by simp [h4]⟩
        intro x hx
        rcases List.mem_cons.mp hx with e | e
        · rw [e]; exact hf
        · exact h3 x e
      · constructor
        · intro h x hx
          rcases List.mem_cons.mp hx with e | e
          · rw [e]; exact hf
          · exact i2.mp h x e
        · intro h
          exact i2.mpr (fun x hx => h x (List.mem_cons_of_mem _ hx))
      · intro h
        show c :: (Admission.inferScan sv u rest).2 = c :: rest
        rw [i3 h]

theorem Admission.SetClass_inferred (sv : Admission.Server) (u : Admission.LocalUser) :
    Admission.SetClass_found sv u "" = (Admission.inferScan sv u sv.Classes).1 := by
  unfold Admission.SetClass_found
  rw [if_neg (by decide)]

theorem sampleMatch_scenario :
    sampleMatch "10.1.2.3" "10.0.0.0/8" = true ∧ sampleMatch "8.8.8.8" "10.0.0.0/8" = false ∧
    sampleMatch "8.8.8.8" "*" = true := by
  decide

theorem Admission.explicitScan_spec (name : String) :
    ∀ (cs : List Admission.ConnectClass) (found : Option Admission.ConnectClass),
      Admission.explicitScan name cs found =
        match (cs.filter (fun c => name = c.name)).getLast? with
        | some c => some c
        | none => found := by
  intro cs
  induction cs with
  | nil => intro found; simp [Admission.explicitScan]
  | cons c rest ih =>
    intro found
    rw [Admission.explicitScan]
    by_cases h : name = c.name
    · rw [if_pos h, ih]
      have hf : (c :: rest).filter (fun c => decide (name = c.name)) =
          c :: rest.filter (fun c => decide (name = c.name)) := by
        simp [List.filter_cons, h]
      rw [hf]
      cases hr : rest.filter (fun c => decide (name = c.name)) with
      | nil => simp
      | cons d ds =>
        rw [List.getLast?_cons_cons]
        cases hl : (d :: ds).getLast? with
        | none => simp at hl
        | some e => rfl
    · rw [if_neg h, ih]
      have hf : (c :: rest).filter (fun c => decide (name = c.name)) =
          rest.filter (fun c => decide (name = c.name)) := by
        simp [List.filter_cons, h]
      rw [hf]

theorem Admission.QuitUser_marks (u : Admission.LocalUser) :
    (Admission.QuitUser u).quitting = true := by
  unfold Admission.QuitUser
  split
  · assumption
  · rfl

theorem Admission.CheckClass_allow (now l g : Nat) (u : Admission.LocalUser)
    (a : Admission.ConnectClass) (h : u.MyClass = some a)
    (ht : a.type ≠ Admission.ClassTypes.CC_DENY) :
    Admission.CheckClass now l g u true =
      if a.GetMaxLocal ≠ 0 ∧ l > a.GetMaxLocal then
        (Admission.QuitUser u,
          some "No more connections allowed from your host via this connect class (local)")
      else if a.GetMaxGlobal ≠ 0 ∧ g > a.GetMaxGlobal then
        (Admission.QuitUser u,
          some "No more connections allowed from your host via this connect class (global)")
      else ({ u with nping := now + a.GetPingTime }, none) := by
  unfold Admission.CheckClass
  rw [h]
  simp only [if_neg ht, if_true]

theorem stamp_same (sent : UserId → Nat) (x : UserId) (newid : Nat) :
    stamp sent x newid x = newid := by
  simp [stamp]

theorem stamp_other (sent : UserId → Nat) {x y : UserId} (newid : Nat) (h : y ≠ x) :
    stamp sent x newid y = sent y := by
  simp [stamp, h]

theorem visitMembers_spec (w : Users) (newid : Nat) :
    ∀ (ms : List UserId) (sent : UserId → Nat) (x : UserId),
      (visitMembers w newid ms sent).2.count x =
        (if x ∈ ms ∧ w.IS_LOCAL x = true ∧ sent x ≠ newid then 1 else 0) ∧
      (visitMembers w newid ms sent).1 x =
        (if x ∈ ms ∧ w.IS_LOCAL x = true then newid else sent x) := by
  intro ms
  induction ms with
  | nil => intro sent x; simp [visitMembers]
  | cons j rest ih =>
    intro sent x
    rw [visitMembers]
    by_cases hj : w.IS_LOCAL j = true ∧ sent j ≠ newid
    · rw [if_pos hj]
      obtain ⟨i1, i2⟩ := ih (stamp sent j newid) x
      simp only
      by_cases hx : x = j
      · subst hx
        rw [List.count_cons_self, i1, i2, stamp_same]
        simp [hj.1, hj.2]
      · rw [List.count_cons_of_ne hx, i1, i2, stamp_other sent newid hx]
        simp [hx]
    · rw [if_neg hj]
      obtain ⟨i1, i2⟩ := ih sent x
      rw [i1, i2]
      by_cases hx : x = j
      · subst hx
        by_cases hl : w.IS_LOCAL x = true
        · have hs : sent x = newid := Classical.not_not.mp (fun h => hj ⟨hl, h⟩)
          simp [hl, hs]
        · simp [hl]
      · simp [hx]

theorem visitChannels_spec (w : Users) (newid : Nat) :
    ∀ (chans : List Channel) (sent : UserId → Nat) (x : UserId),
      (visitChannels w newid chans sent).2.count x =
        (if (∃ c ∈ chans, x ∈ c) ∧ w.IS_LOCAL x = true ∧ sent x ≠ newid then 1 else 0) ∧
      (visitChannels w newid chans sent).1 x =
        (if (∃ c ∈ chans, x ∈ c) ∧ w.IS_LOCAL x = true then newid else sent x) := by
  intro chans
  induction chans with
  | nil => intro sent x; simp [visitChannels]
  | cons ch rest ih =>
    intro sent x
    rw [visitChannels]
    obtain ⟨m1, m2⟩ := visitMembers_spec w newid ch sent x
    obtain ⟨i1, i2⟩ := ih (visitMembers w newid ch sent).1 x
    simp only [List.count_append]
    rw [m1, i1, i2, m2]
    by_cases hl : w.IS_LOCAL x = true
    · by_cases hc : x ∈ ch
      · by_cases hs : sent x = newid
        · simp [hl, hc, hs]
        · simp [hl, hc, hs]
      · by_cases hr : ∃ c ∈ rest, x ∈ c
        · simp [hl, hc, hr]
        · have hr2 : ∀ c ∈ rest, x ∉ c := fun c hc2 hx => hr ⟨c, hc2, hx⟩
          simp [hl, hc, hr2]
    · simp [hl]

theorem visitExceptions_spec (w : Users) (newid : Nat) :
    ∀ (es : List (UserId × Bool)) (sent : UserId → Nat) (x : UserId),
      (es.map Prod.fst).Nodup →
      (visitExceptions w newid es sent).2.count x =
        (if (x, true) ∈ es ∧ w.IS_LOCAL x = true ∧ w.quitting x = false then 1 else 0) ∧
      (visitExceptions w newid es sent).1 x =
        (if x ∈ es.map Prod.fst ∧ w.IS_LOCAL x = true then newid else sent x) := by
  intro es
  induction es with
  | nil => intro sent x _; simp [visitExceptions]
  | cons e rest ih =>
    obtain ⟨curr, flag⟩ := e
    intro sent x hnd
    simp only [List.map_cons, List.nodup_cons] at hnd
    obtain ⟨hnot, hnd2⟩ := hnd
    have hkey : ∀ b, (curr, b) ∉ rest := by
      intro b hb
      exact hnot (List.mem_map.mpr ⟨(curr, b), hb, rfl⟩)
    rw [visitExceptions]
    by_cases hl : w.IS_LOCAL curr = true
    · rw [if_pos hl]
      obtain ⟨i1, i2⟩ := ih (stamp sent curr newid) x hnd2
      by_cases hf : flag = true ∧ (!w.quitting curr) = true
      · rw [if_pos hf]
        simp only
        have hq : w.quitting curr = false := by simpa using hf.2
        by_cases hx : x = curr
        · subst hx
          rw [List.count_cons_self, i1, i2, stamp_same]
          simp [hl, hq, hf.1, hkey true]
        · rw [List.count_cons_of_ne hx, i1, i2, stamp_other sent newid hx]
          simp [hx]
      · rw [if_neg hf, i1, i2]
        by_cases hx : x = curr
        · subst hx
          rw [stamp_same]
          by_cases hfl : flag = true
          · have hq : w.quitting x = true := by
              cases hqq : w.quitting x with
              | true => rfl
              | false => exact absurd ⟨hfl, by simp [hqq]⟩ hf
            simp [hl, hq, hkey true]
          · have hfl2 : flag = false := by simpa using hfl
            simp [hl, hfl2, hkey true]
        · rw [stamp_other sent newid hx]
          simp [hx]
    · rw [if_neg hl]
      obtain ⟨i1, i2⟩ := ih sent x hnd2
      rw [i1, i2]
      by_cases hx : x = curr
      · subst hx
        simp [hl]
      · simp [hx]

theorem entry_flag {es : List (UserId × Bool)} (hnd : (es.map Prod.fst).Nodup) {x : UserId}
    {flag : Bool} (h : (x, flag) ∈ es) : ((x, true) ∈ es ↔ flag = true) := by
  induction es with
  | nil => simp at h
  | cons e rest ih =>
    simp only [List.map_cons, List.nodup_cons] at hnd
    obtain ⟨hnot, hnd2⟩ := hnd
    have hkey : ∀ b, (e.1, b) ∉ rest := fun b hb => hnot (List.mem_map.mpr ⟨(e.1, b), hb, rfl⟩)
    rcases List.mem_cons.mp h with he | hr
    · subst he
      constructor
      · intro ht
        rcases List.mem_cons.mp ht with e2 | e2
        · exact (Prod.mk.inj e2).2.symm
        · exact absurd e2 (hkey true)
      · intro hf
        subst hf
        exact List.mem_cons_self _ _
    · have hne : x ≠ e.1 := by
        intro hxe
        subst hxe
        exact hkey flag hr
      constructor
      · intro ht
        rcases List.mem_cons.mp ht with e2 | e2
        · exact absurd (congrArg Prod.fst e2) hne
        · exact (ih hnd2 hr).mp e2
      · intro hf
        exact List.mem_cons_of_mem _ ((ih hnd2 hr).mpr hf)

theorem ForEachNeighbor_count (w : Users) (hook : NeighborHook) (newid : Nat)
    (source : UserId) (chans : List Channel) (include_self : Bool) (x : UserId) :
    (ForEachNeighbor w hook newid source chans include_self).executed.count x =
      if x ∈ (hook source chans (selfException source include_self)).2.entries.map Prod.fst then
        (if (x, true) ∈ (hook source chans (selfException source include_self)).2.entries ∧
          w.IS_LOCAL x = true ∧ w.quitting x = false then 1 else 0)
      else
        (if (∃ c ∈ (hook source chans (selfException source include_self)).1, x ∈ c) ∧
          w.IS_LOCAL x = true ∧ w.already_sent x ≠ newid then 1 else 0) := by
  unfold ForEachNeighbor
  simp only [List.count_append]
  generalize hook source chans (selfException source include_self) = built
  obtain ⟨e1, e2⟩ := visitExceptions_spec w newid built.2.entries w.already_sent x built.2.nodup
  obtain ⟨c1, _⟩ := visitChannels_spec w newid built.1
    (visitExceptions w newid built.2.entries w.already_sent).1 x
  rw [e1, c1, e2]
  by_cases hk : x ∈ built.2.entries.map Prod.fst
  · by_cases hl : w.IS_LOCAL x = true
    · simp [hk, hl]
    · simp [hk, hl]
  · have hno : (x, true) ∉ built.2.entries :=
      fun h => hk (List.mem_map.mpr ⟨(x, true), h, rfl⟩)
    simp [hk, hno]

theorem Admission.CheckClass_exempt (now l g : Nat) (u : Admission.LocalUser) (e cc : Bool) :
    (Admission.CheckClass now l g { u with exempt := e } cc).2 =
      (Admission.CheckClass now l g u cc).2 := by
  unfold Admission.CheckClass
  cases hm : u.MyClass with
  | none => rfl
  | some a =>
    simp only
    split
    · rfl
    · split
      · split
        · rfl
        · split <;> rfl
      · rfl

theorem NUL_not_mem_clean (l : List Byte) : NUL ∉ clean l := by
  intro h
  simp only [clean, List.mem_map, List.mem_filter] at h
  obtain ⟨a, _, h2⟩ := h
  by_cases h0 : a = NUL
  · simp only [h0, if_true] at h2
    exact absurd h2 (by decide)
  · simp only [h0, if_false] at h2

theorem LF_not_mem_clean {l : List Byte} (hl : LF ∉ l) : LF ∉ clean l := by
  intro h
  simp only [clean, List.mem_map, List.mem_filter] at h
  obtain ⟨a, ⟨ha, _⟩, h2⟩ := h
  by_cases h0 : a = NUL
  · simp only [h0, if_true] at h2
    exact absurd h2 (by decide)
  · simp only [h0, if_false] at h2
    exact hl (h2 ▸ ha)

theorem maxmessage_eq {MaxLine : Nat} (h2 : 2 ≤ MaxLine) (hw : MaxLine < 2 ^ 64) :
    maxmessage MaxLine = MaxLine - 2 := by
  unfold maxmessage
  generalize (2 : Nat) ^ 64 = K at hw ⊢
  rw [Nat.sub_add_comm h2, Nat.add_mod_right]
  exact Nat.mod_eq_of_lt (Nat.lt_of_le_of_lt (Nat.sub_le _ _) hw)

theorem pass_shrinks (PB : Dispatcher) (mm : Nat) (r : List Byte) (u : Session) (h : LF ∈ r) :
    (pass PB mm r u).recvq_after.length < (pass PB mm r u).recvq_before.length := by
  obtain ⟨h1, _, h3, _, _, h6, _⟩ := pass_facts PB mm r u h
  rw [h1]
  omega

theorem consume_count (PB : Dispatcher) (pm sm mm fuel : Nat) (recvq : List Byte) (u : Session) :
    (consume PB pm sm mm fuel recvq u).dispatched.length ≤ recvq.count LF := by
  obtain ⟨pre, h1, h2, _⟩ := consume_erases PB pm sm mm fuel recvq u
  have h3 : recvq.count LF = pre.count LF + (consume PB pm sm mm fuel recvq u).recvq.count LF := by
    conv_lhs => rw [h1]
    exact List.count_append _ _ _
  rw [h3, h2]
  exact Nat.le_add_right _ _

theorem find_append_of_not_mem (c : Byte) : ∀ (a b : List Byte), c ∉ a →
    find (a ++ c :: b) c = some a.length := by
  intro a
  induction a with
  | nil => intro b _; simp [find]
  | cons x xs ih =>
    intro b h
    have hx : x ≠ c := fun e => h (e ▸ List.mem_cons_self _ _)
    have hxs : c ∉ xs := fun e => h (List.mem_cons_of_mem _ e)
    simp [find, hx, ih b hxs]

theorem find_of_not_mem (c : Byte) : ∀ (a : List Byte), c ∉ a → find a c = none := by
  intro a
  induction a with
  | nil => intro _; rfl
  | cons x xs ih =>
    intro h
    have hx : x ≠ c := fun e => h (e ▸ List.mem_cons_self _ _)
    have hxs : c ∉ xs := fun e => h (List.mem_cons_of_mem _ e)
    simp [find, hx, ih hxs]

theorem runStates_head (PB : Dispatcher) (mm : Nat) (L : List (List Byte)) (u : Session) :
    ∃ tail, runStates PB mm L u = u :: tail := by
  cases L with
  | nil => exact ⟨[], rfl⟩
  | cons l ls => exact ⟨_, rfl⟩

theorem afterLines_mem_runStates (PB : Dispatcher) (mm : Nat) :
    ∀ (L : List (List Byte)) (u : Session), afterLines PB mm L u ∈ runStates PB mm L u := by
  intro L
  induction L with
  | nil => intro u; simp [afterLines, runStates]
  | cons l ls ih =>
    intro u
    simp only [afterLines, runStates]
    exact List.mem_cons_of_mem _ (ih _)

theorem runStates_append_left (PB : Dispatcher) (mm : Nat) :
    ∀ (A B : List (List Byte)) (u : Session),
      runStates PB mm A u <+: runStates PB mm (A ++ B) u := by
  intro A
  induction A with
  | nil =>
    intro B u
    obtain ⟨tail, h⟩ := runStates_head PB mm B u
    simp only [List.nil_append, runStates, h]
    exact ⟨tail, rfl⟩
  | cons l ls ih =>
    intro B u
    simp only [List.cons_append, runStates]
    obtain ⟨t, ht⟩ := ih B (PB (sanitize mm l) (account u (l.length + 1)))
    exact ⟨t, by rw [List.cons_append, ht]; rfl⟩

theorem runStates_append_right (PB : Dispatcher) (mm : Nat) :
    ∀ (A B : List (List Byte)) (u : Session),
      runStates PB mm B (afterLines PB mm A u) <:+ runStates PB mm (A ++ B) u := by
  intro A
  induction A with
  | nil => intro B u; exact List.suffix_refl _
  | cons l ls ih =>
    intro B u
    simp only [List.cons_append, runStates, afterLines]
    obtain ⟨t, ht⟩ := ih B (PB (sanitize mm l) (account u (l.length + 1)))
    exact ⟨u :: t, by rw [List.cons_append, ht]; rfl⟩

theorem gate_of_runStates (PB : Dispatcher) (pm sm mm : Nat) :
    ∀ (L : List (List Byte)) (u : Session),
      (∀ t ∈ runStates PB mm L u,
        t.quitting = false ∧ t.CommandFloodPenalty < pm ∧ t.SendQSize < sm) →
      GateOpen PB pm sm mm L u := by
  intro L
  induction L with
  | nil => intro u _; trivial
  | cons l ls ih =>
    intro u h
    simp only [runStates] at h
    have hu := h u (List.mem_cons_self _ _)
    obtain ⟨tail, ht⟩ := runStates_head PB mm ls (PB (sanitize mm l) (account u (l.length + 1)))
    have hn := h (PB (sanitize mm l) (account u (l.length + 1)))
      (List.mem_cons_of_mem _ (by rw [ht]; exact List.mem_cons_self _ _))
    exact ⟨hu.2.1, hu.2.2, hn.1, ih _ (fun t hmem => h t (List.mem_cons_of_mem _ hmem))⟩

theorem consume_unhindered (PB : Dispatcher) (pm sm mm : Nat)
    (recvq : List Byte) (u : Session) (fuel : Nat) (hfuel : recvq.length < fuel)
    (hall : ∀ t ∈ runStates PB mm (completeLines recvq) u,
      t.quitting = false ∧ t.CommandFloodPenalty < pm ∧ t.SendQSize < sm) :
    (consume PB pm sm mm fuel recvq u).recvq = fragment recvq ∧
    (consume PB pm sm mm fuel recvq u).user = afterLines PB mm (completeLines recvq) u ∧
    (consume PB pm sm mm fuel recvq u).quit = none ∧
    (consume PB pm sm mm fuel recvq u).dispatched.map (fun d => d.line) =
      (completeLines recvq).map (sanitize mm) := by
  obtain ⟨h1, h2, h3⟩ := lines_of_recvq (recvq.length + 1) recvq (Nat.lt_succ_self _)
  have g1 := gate_of_runStates PB pm sm mm (completeLines recvq) u hall
  have g2 := hall _ (afterLines_mem_runStates PB mm (completeLines recvq) u)
  revert h1 h2 h3 g1 g2
  generalize completeLines recvq = L
  generalize fragment recvq = F
  intro h1 h2 h3 g1 g2
  subst h1
  obtain ⟨k1, k2, k3, k4⟩ := consume_lines PB pm sm mm L F u fuel (F.length + 1) h2 g1 hfuel
    (Nat.lt_succ_self _)
  have hfin : consume PB pm sm mm (F.length + 1) F (afterLines PB mm L u) =
      ⟨F, afterLines PB mm L u, [], none⟩ := by
    rw [consume_succ, if_pos ⟨g2.2.1, g2.2.2⟩, if_neg h3]
  rw [hfin] at k1 k2 k3 k4
  exact ⟨k1, k2, k3, by simpa using k4⟩

theorem OnDataReady_unhindered (PB : Dispatcher) (MaxLine : Nat)
    (recvq : List Byte) (u : Session)
    (hall : ∀ t ∈ runStates PB (maxmessage MaxLine) (completeLines recvq) u,
      t.quitting = false ∧ t.CommandFloodPenalty < penaltymax u ∧ t.SendQSize < sendqmax u)
    (hr : ¬ (recvq.length > u.MyClass.GetRecvqMax ∧
      (!HasPrivPermission u "users/flood/increased-buffers") = true)) :
    (OnDataReady PB MaxLine recvq u).recvq = fragment recvq ∧
    (OnDataReady PB MaxLine recvq u).user =
      afterLines PB (maxmessage MaxLine) (completeLines recvq) u ∧
    (OnDataReady PB MaxLine recvq u).quit = none ∧
    (OnDataReady PB MaxLine recvq u).dispatched.map (fun d => d.line) =
      (completeLines recvq).map (sanitize (maxmessage MaxLine)) := by
  obtain ⟨tail, ht⟩ := runStates_head PB (maxmessage MaxLine) (completeLines recvq) u
  have hq := (hall u (by rw [ht]; exact List.mem_cons_self _ _)).1
  unfold OnDataReady
  rw [if_neg (by simp [hq]), if_neg hr]
  exact consume_unhindered PB _ _ _ recvq u _ (Nat.lt_succ_self _) hall

theorem feedChunks_unhindered (PB : Dispatcher) (MaxLine : Nat) (N : Nat) :
    ∀ (chunks : List (List Byte)) (r0 : List Byte) (u : Session), LF ∉ r0 →
      (r0 ++ chunks.flatten).length ≤ N →
      (∀ s ∈ runStates PB (maxmessage MaxLine) (completeLines (r0 ++ chunks.flatten)) u,
        s.quitting = false ∧ s.CommandFloodPenalty < penaltymax s ∧
        s.SendQSize < sendqmax s ∧
        ¬ (N > s.MyClass.GetRecvqMax ∧
          (!HasPrivPermission s "users/flood/increased-buffers") = true)) →
      (runStates PB (maxmessage MaxLine) (completeLines (r0 ++ chunks.flatten)) u).Pairwise
        (fun s t => t.CommandFloodPenalty < penaltymax s ∧ t.SendQSize < sendqmax s) →
      feedChunks PB MaxLine r0 u chunks =
        ((completeLines (r0 ++ chunks.flatten)).map (sanitize (maxmessage MaxLine)),
          fragment (r0 ++ chunks.flatten),
          afterLines PB (maxmessage MaxLine) (completeLines (r0 ++ chunks.flatten)) u) := by
  intro chunks
  induction chunks with
  | nil =>
    intro r0 u h0 _ _ _
    obtain ⟨k1, k2⟩ := completeLines_no_LF h0
    simp [feedChunks, k1, k2, afterLines]
  | cons c cs ih =>
    intro r0 u h0 hN hself hlater
    have hjoin : r0 ++ (c :: cs).flatten = (r0 ++ c) ++ cs.flatten := by simp
    rw [hjoin] at hN hself hlater ⊢
    obtain ⟨s1, s2, s3⟩ := completeLines_append (r0 ++ c) cs.flatten
    rw [s1] at hself hlater
    have hpre := runStates_append_left PB (maxmessage MaxLine) (completeLines (r0 ++ c))
      (completeLines (fragment (r0 ++ c) ++ cs.flatten)) u
    have hsuf := runStates_append_right PB (maxmessage MaxLine) (completeLines (r0 ++ c))
      (completeLines (fragment (r0 ++ c) ++ cs.flatten)) u
    obtain ⟨tail, ht⟩ := runStates_head PB (maxmessage MaxLine)
      (completeLines (r0 ++ c) ++ completeLines (fragment (r0 ++ c) ++ cs.flatten)) u
    have hu := hself u (by rw [ht]; exact List.mem_cons_self _ _)
    have hlen1 : (r0 ++ c).length ≤ N := by
      rw [List.length_append] at hN; omega
    have hr1 : ¬ ((r0 ++ c).length > u.MyClass.GetRecvqMax ∧
        (!HasPrivPermission u "users/flood/increased-buffers") = true) := by
      intro h
      exact hu.2.2.2 ⟨by omega, h.2⟩
    have hall : ∀ t ∈ runStates PB (maxmessage MaxLine) (completeLines (r0 ++ c)) u,
        t.quitting = false ∧ t.CommandFloodPenalty < penaltymax u ∧
        t.SendQSize < sendqmax u := by
      intro t hmem
      have hmem2 := hpre.subset hmem
      refine ⟨(hself t hmem2).1, ?_⟩
      rw [ht] at hmem2 hlater
      rcases List.mem_cons.mp hmem2 with e | e
      · rw [e]; exact ⟨hu.2.1, hu.2.2.1⟩
      · exact (List.pairwise_cons.mp hlater).1 t e
    obtain ⟨o1, o2, _, o4⟩ := OnDataReady_unhindered PB MaxLine (r0 ++ c) u hall hr1
    obtain ⟨_, _, hF⟩ := lines_of_recvq ((r0 ++ c).length + 1) (r0 ++ c) (Nat.lt_succ_self _)
    have hlen2 : (fragment (r0 ++ c) ++ cs.flatten).length ≤ N := by
      rw [List.length_append] at hN ⊢; omega
    have := ih (fragment (r0 ++ c)) _ hF hlen2 (fun s hs => hself s (hsuf.subset hs))
      (hlater.sublist hsuf.sublist)
    simp only [feedChunks, o1, o2, o4, this]
    rw [s1, s2, List.map_append, afterLines_append]

/-! ## The properties -/

/-- C1: chunk-boundary independence of `OnDataReady`.  Take the states the run
over the complete lines of the whole input goes through (`runStates`: the state
before each line and the state after the last).  Suppose that in each of them the
user is not quitting, that the penalty counter and the send queue size of each
are below the limits computed from it and from every state that comes before it
(the flood gate never closes, whichever of these states a call starts in, and the
dispatcher never marks the user quitting), and that the whole input does not
exceed the `recvq` maximum of any of them.  Then, started on a `recvq` with no line
feed, appending the chunks one at a time with an `OnDataReady` call after each
append dispatches the same lines, and leaves the same `recvq` and the same state,
as appending their concatenation and calling `OnDataReady` once.  The dispatcher
is arbitrary: it may raise the penalty counter with every line. -/
theorem OnDataReady_chunk_independent (PB : Dispatcher) (MaxLine : Nat)
    (chunks : List (List Byte)) (r0 : List Byte) (u : Session)
    (hself : ∀ s ∈ runStates PB (maxmessage MaxLine) (completeLines (r0 ++ chunks.flatten)) u,
      s.quitting = false ∧ s.CommandFloodPenalty < penaltymax s ∧
      s.SendQSize < sendqmax s ∧
      ¬ ((r0 ++ chunks.flatten).length > s.MyClass.GetRecvqMax ∧
        (!HasPrivPermission s "users/flood/increased-buffers") = true))
    (hlater : (runStates PB (maxmessage MaxLine) (completeLines (r0 ++ chunks.flatten))
      u).Pairwise
        (fun s t => t.CommandFloodPenalty < penaltymax s ∧ t.SendQSize < sendqmax s))
    (h0 : LF ∉ r0) :
    feedChunks PB MaxLine r0 u chunks =
      ((OnDataReady PB MaxLine (r0 ++ chunks.flatten) u).dispatched.map (fun d => d.line),
        (OnDataReady PB MaxLine (r0 ++ chunks.flatten) u).recvq,
        (OnDataReady PB MaxLine (r0 ++ chunks.flatten) u).user) := by
  obtain ⟨tail, ht⟩ := runStates_head PB (maxmessage MaxLine)
    (completeLines (r0 ++ chunks.flatten)) u
  have hu := hself u (by rw [ht]; exact List.mem_cons_self _ _)
  have hall : ∀ t ∈ runStates PB (maxmessage MaxLine) (completeLines (r0 ++ chunks.flatten)) u,
      t.quitting = false ∧ t.CommandFloodPenalty < penaltymax u ∧
      t.SendQSize < sendqmax u := by
    intro t hmem
    refine ⟨(hself t hmem).1, ?_⟩
    rw [ht] at hmem hlater
    rcases List.mem_cons.mp hmem with e | e
    · rw [e]; exact ⟨hu.2.1, hu.2.2.1⟩
    · exact (List.pairwise_cons.mp hlater).1 t e
  obtain ⟨o1, o2, _, o4⟩ := OnDataReady_unhindered PB MaxLine (r0 ++ chunks.flatten) u hall
    hu.2.2.2
  rw [feedChunks_unhindered PB MaxLine _ chunks r0 u h0 (Nat.le_refl _) hself hlater,
    o1, o2, o4]

theorem OnDataReady_chunk_independent_witness :
    (∀ s ∈ runStates (charging 1000) (maxmessage 512)
        (completeLines ([] ++ [[97, 13], [10, 98], [10, 99]].flatten)) guest,
      s.quitting = false ∧ s.CommandFloodPenalty < penaltymax s ∧
      s.SendQSize < sendqmax s ∧
      ¬ (([] ++ [[97, 13], [10, 98], [10, 99]].flatten : List Byte).length >
          s.MyClass.GetRecvqMax ∧
        (!HasPrivPermission s "users/flood/increased-buffers") = true)) ∧
    (runStates (charging 1000) (maxmessage 512)
        (completeLines ([] ++ [[97, 13], [10, 98], [10, 99]].flatten)) guest).Pairwise
      (fun s t => t.CommandFloodPenalty < penaltymax s ∧ t.SendQSize < sendqmax s) ∧
    LF ∉ ([] : List Byte) ∧
    feedChunks (charging 1000) 512 [] guest [[97, 13], [10, 98], [10, 99]] =
      ((OnDataReady (charging 1000) 512 ([] ++ [[97, 13], [10, 98], [10, 99]].flatten)
          guest).dispatched.map (fun d => d.line),
        (OnDataReady (charging 1000) 512 ([] ++ [[97, 13], [10, 98], [10, 99]].flatten)
          guest).recvq,
        (OnDataReady (charging 1000) 512 ([] ++ [[97, 13], [10, 98], [10, 99]].flatten)
          guest).user) :=
  ⟨by decide, by decide, by simp,
    OnDataReady_chunk_independent (charging 1000) 512 [[97, 13], [10, 98], [10, 99]] [] guest
      (by decide) (by decide) (by simp)⟩

/-- C2, as the code has it: when the bytes of a line before its line feed,
carriage returns not counted, are more than `MaxLine - 2`, the line `OnDataReady`
dispatches has exactly `MaxLine - 2` bytes, the first `MaxLine - 2` sanitized
bytes; the pass erases from `recvq` all the bytes before the line feed, the cut
off ones included, and the line feed; and the next pass, if any, starts on what
follows that line feed. -/
theorem OnDataReady_truncates_long_line (PB : Dispatcher) (MaxLine : Nat)
    (recvq : List Byte) (u : Session) (d : Dispatched)
    (hd : d ∈ (OnDataReady PB MaxLine recvq u).dispatched)
    (hlong : maxmessage MaxLine < ((content d.recvq_before).filter (fun c => c ≠ CR)).length) :
    d.line.length = maxmessage MaxLine ∧
    d.line = (clean (content d.recvq_before)).take (maxmessage MaxLine) ∧
    d.recvq_before = content d.recvq_before ++ LF :: d.recvq_after ∧
    (∀ pre e post, (OnDataReady PB MaxLine recvq u).dispatched = pre ++ d :: e :: post →
      e.recvq_before = d.recvq_after) := by
  have hl := OnDataReady_linked PB MaxLine recvq u
  refine ⟨?_, ?_, ?_, ?_⟩
  · obtain ⟨r0, u0, rfl, hm, _, _, _⟩ := hl.mem hd
    revert hlong
    generalize maxmessage MaxLine = mm
    intro hlong
    obtain ⟨h1, _, _, h4, _, _, _⟩ := pass_facts PB mm r0 u0 hm
    rw [h1, ← clean_length] at hlong
    rw [h4, sanitize, List.length_take]
    exact Nat.min_eq_left (Nat.le_of_lt hlong)
  · obtain ⟨r0, u0, rfl, hm, _, _, _⟩ := hl.mem hd
    generalize maxmessage MaxLine = mm
    rfl
  · obtain ⟨r0, u0, rfl, hm, _, _, _⟩ := hl.mem hd
    generalize maxmessage MaxLine = mm
    exact (pass_facts PB mm r0 u0 hm).2.2.2.2.1
  · intro pre e post htr
    rw [htr] at hl
    exact (Linked.chain pre hl).1

set_option maxRecDepth 100000 in
theorem OnDataReady_truncates_long_line_witness :
    longPass ∈ (OnDataReady idle 512 longLine guest).dispatched ∧
    maxmessage 512 < ((content longPass.recvq_before).filter (fun c => c ≠ CR)).length ∧
    (longPass.line.length = maxmessage 512 ∧
    longPass.line = (clean (content longPass.recvq_before)).take (maxmessage 512) ∧
    longPass.recvq_before = content longPass.recvq_before ++ LF :: longPass.recvq_after ∧
    (∀ pre e post, (OnDataReady idle 512 longLine guest).dispatched = pre ++ longPass :: e :: post →
      e.recvq_before = longPass.recvq_after)) :=
  have hmem : longPass ∈ (OnDataReady idle 512 longLine guest).dispatched :=
    first_pass_mem idle 512 longLine guest rfl (by decide) (by decide) (by decide) (by decide)
  have hlong : maxmessage 512 <
      ((content longPass.recvq_before).filter (fun c => c ≠ CR)).length := by decide
  ⟨hmem, hlong, OnDataReady_truncates_long_line idle 512 longLine guest longPass hmem hlong⟩

set_option maxRecDepth 100000 in

/-- C2 as stated fails: the only line of `paddedLine` has 511 bytes before its
line feed, more than the maximum of 510, and the line dispatched for it has 509
bytes. -/
theorem long_content_counterexample :
    ¬ (∀ d ∈ (OnDataReady idle 512 paddedLine guest).dispatched,
        maxmessage 512 < (content d.recvq_before).length →
        d.line.length = maxmessage 512) := by
  intro h
  have h1 := h paddedPass
    (first_pass_mem idle 512 paddedLine guest rfl (by decide) (by decide) (by decide) (by decide))
    (by decide)
  revert h1
  decide

/-- C3, as the code has it: each line `OnDataReady` dispatches ends at the first
line feed of the unconsumed `recvq` (the buffer is the bytes before its first line
feed, the line feed, and what is left afterwards); the dispatched line is those
bytes with every carriage return dropped and every NUL replaced by a space, cut
to the first `MaxLine - 2` of them, so it holds no carriage return; and a NUL
before the line feed shows as a space at its own position when that position is
below `MaxLine - 2` and no carriage return comes before it. -/
theorem OnDataReady_line_is_sanitized_content (PB : Dispatcher) (MaxLine : Nat)
    (recvq : List Byte) (u : Session) (d : Dispatched)
    (hd : d ∈ (OnDataReady PB MaxLine recvq u).dispatched) :
    d.recvq_before = content d.recvq_before ++ LF :: d.recvq_after ∧
    LF ∉ content d.recvq_before ∧
    d.line = (((content d.recvq_before).filter (fun c => c ≠ CR)).map
      (fun c => if c = NUL then SPACE else c)).take (maxmessage MaxLine) ∧
    CR ∉ d.line ∧
    (∀ i, i < maxmessage MaxLine → CR ∉ (content d.recvq_before).take i →
      (content d.recvq_before)[i]? = some NUL → d.line[i]? = some SPACE) := by
  obtain ⟨r0, u0, rfl, hm, _, _, _⟩ := (OnDataReady_linked PB MaxLine recvq u).mem hd
  generalize maxmessage MaxLine = mm
  obtain ⟨h1, _, _, h4, h5, _, _⟩ := pass_facts PB mm r0 u0 hm
  refine ⟨?_, ?_, ?_, ?_, ?_⟩
  · rw [h1]; exact h5
  · rw [h1]; exact LF_not_mem_content r0
  · rw [h4, h1]; rfl
  · rw [h4]; exact CR_not_mem_sanitize _ _
  · intro i hi hcr hn
    rw [h1] at hcr hn
    rw [h4, sanitize, List.getElem?_take_of_lt hi]
    exact clean_getElem? _ _ hcr hn

theorem OnDataReady_line_is_sanitized_content_witness :
    crNulPass ∈ (OnDataReady idle 512 [13, 0, 10] guest).dispatched ∧
    (crNulPass.recvq_before = content crNulPass.recvq_before ++ LF :: crNulPass.recvq_after ∧
    LF ∉ content crNulPass.recvq_before ∧
    crNulPass.line = (((content crNulPass.recvq_before).filter (fun c => c ≠ CR)).map
      (fun c => if c = NUL then SPACE else c)).take (maxmessage 512) ∧
    CR ∉ crNulPass.line ∧
    (∀ i, i < maxmessage 512 → CR ∉ (content crNulPass.recvq_before).take i →
      (content crNulPass.recvq_before)[i]? = some NUL → crNulPass.line[i]? = some SPACE)) :=
  have hmem : crNulPass ∈ (OnDataReady idle 512 [13, 0, 10] guest).dispatched :=
    List.Mem.head _
  ⟨hmem, OnDataReady_line_is_sanitized_content idle 512 [13, 0, 10] guest crNulPass hmem⟩

/-- C3 as stated fails: on the buffer `\r\0\n` the NUL is at position 1 of the
bytes before the line feed, and the dispatched line is the single space, which
has no position 1. -/
theorem NUL_same_position_counterexample :
    ¬ (∀ d ∈ (OnDataReady idle 512 [13, 0, 10] guest).dispatched, ∀ i,
        i < (content d.recvq_before).length → d.recvq_before[i]? = some NUL →
        d.line[i]? = some SPACE) := by
  intro h
  have h1 := h crNulPass (List.Mem.head _) 1 (by decide) (by decide)
  revert h1
  decide

/-- C4: after any `OnDataReady` call, `recvq` is the suffix of the original
`recvq` that follows the line feed of the last dispatched line: the original is
`pre ++ recvq` where `pre` is empty when no line was dispatched, and otherwise
ends in a line feed and holds as many line feeds as lines were dispatched.  When
the original `recvq` holds no line feed, nothing is dispatched and `recvq`,
`bytes_in` and `cmds_in` are left as they were. -/
theorem OnDataReady_keeps_unconsumed_suffix (PB : Dispatcher) (MaxLine : Nat)
    (recvq : List Byte) (u : Session) :
    (∃ pre, recvq = pre ++ (OnDataReady PB MaxLine recvq u).recvq ∧
      pre.count LF = (OnDataReady PB MaxLine recvq u).dispatched.length ∧
      ((OnDataReady PB MaxLine recvq u).dispatched = [] → pre = []) ∧
      ((OnDataReady PB MaxLine recvq u).dispatched ≠ [] → pre.getLast? = some LF)) ∧
    (LF ∉ recvq →
      (OnDataReady PB MaxLine recvq u).dispatched = [] ∧
      (OnDataReady PB MaxLine recvq u).recvq = recvq ∧
      (OnDataReady PB MaxLine recvq u).user.bytes_in = u.bytes_in ∧
      (OnDataReady PB MaxLine recvq u).user.cmds_in = u.cmds_in) := by
  unfold OnDataReady
  split
  · exact ⟨⟨[], by simp⟩, fun _ => by simp⟩
  · split
    · exact ⟨⟨[], by simp⟩, fun _ => by simp [QuitUser_bytes_in, QuitUser_cmds_in]⟩
    · exact ⟨consume_erases _ _ _ _ _ _ _, consume_no_LF _ _ _ _ _ _ _⟩

/-- C5: for each line `OnDataReady` dispatches, `recvq` shrinks by exactly the
number `qpos` of raw bytes from its start up to and including the first line feed
(the buffer before the pass is the bytes before that line feed, the line feed, and
the buffer after the pass), `bytes_in` grows by `qpos` and `cmds_in` grows by one,
both in `unsigned long` arithmetic. -/
theorem OnDataReady_accounts_each_line (PB : Dispatcher) (MaxLine : Nat) (recvq : List Byte)
    (u : Session) (d : Dispatched) (hd : d ∈ (OnDataReady PB MaxLine recvq u).dispatched) :
    d.recvq_before = content d.recvq_before ++ LF :: d.recvq_after ∧
    d.qpos = (content d.recvq_before).length + 1 ∧
    d.recvq_after.length + d.qpos = d.recvq_before.length ∧
    d.handed.bytes_in = (d.at_guard.bytes_in + d.qpos) % 2 ^ 64 ∧
    d.handed.cmds_in = (d.at_guard.cmds_in + 1) % 2 ^ 64 := by
  obtain ⟨r0, u0, rfl, hm, _, _, _⟩ := (OnDataReady_linked PB MaxLine recvq u).mem hd
  generalize maxmessage MaxLine = mm
  obtain ⟨h1, h2, h3, _, h5, h6, h7⟩ := pass_facts PB mm r0 u0 hm
  refine ⟨?_, h3, ?_, ?_, ?_⟩
  · rw [h1]; exact h5
  · rw [h1]; exact h6
  · rw [h7, h2, h3]; rfl
  · rw [h7, h2]; rfl

theorem OnDataReady_accounts_each_line_witness :
    samplePass ∈ (OnDataReady idle 512 [97, 13, 10, 98] guest).dispatched ∧
    (samplePass.recvq_before = content samplePass.recvq_before ++ LF :: samplePass.recvq_after ∧
    samplePass.qpos = (content samplePass.recvq_before).length + 1 ∧
    samplePass.recvq_after.length + samplePass.qpos = samplePass.recvq_before.length ∧
    samplePass.handed.bytes_in = (samplePass.at_guard.bytes_in + samplePass.qpos) % 2 ^ 64 ∧
    samplePass.handed.cmds_in = (samplePass.at_guard.cmds_in + 1) % 2 ^ 64) :=
  have hmem : samplePass ∈ (OnDataReady idle 512 [97, 13, 10, 98] guest).dispatched :=
    List.Mem.head _
  ⟨hmem, OnDataReady_accounts_each_line idle 512 [97, 13, 10, 98] guest samplePass hmem⟩

/-- C6: `OnDataReady` never hands a line to the dispatcher for a quitting user.
When `quitting` is set on entry nothing is dispatched; every state handed to the
dispatcher has `quitting` clear; and a dispatcher call (whose result is that of
the dispatcher on the line and state it was handed) that returns with `quitting`
set is the last call of the run.  This holds for every dispatcher, every
`MaxLine`, every `recvq` and every state on entry. -/
theorem OnDataReady_no_dispatch_when_quitting (PB : Dispatcher) (MaxLine : Nat)
    (recvq : List Byte) (u : Session) :
    (u.quitting = true → (OnDataReady PB MaxLine recvq u).dispatched = []) ∧
    (∀ d ∈ (OnDataReady PB MaxLine recvq u).dispatched,
        d.handed.quitting = false ∧ d.returned = PB d.line d.handed) ∧
    (∀ pre d post, (OnDataReady PB MaxLine recvq u).dispatched = pre ++ d :: post →
        d.returned.quitting = true → post = []) := by
  refine ⟨fun h => by rw [OnDataReady_quitting _ _ _ _ h], ?_, ?_⟩
  · intro d hd
    cases hq : u.quitting with
    | true => rw [OnDataReady_quitting _ _ _ _ hq] at hd; simp at hd
    | false =>
      obtain ⟨r0, u0, rfl, _, _, _, h5⟩ := (OnDataReady_linked PB MaxLine recvq u).mem hd
      exact ⟨h5 hq, pass_returned _ _ _ _⟩
  · intro pre d post htr hq
    have hl := OnDataReady_linked PB MaxLine recvq u
    rw [htr] at hl
    exact (Linked.split pre hl).2.1 hq

/-- C7, as the code has it: for a user without the two bypass privileges, every
line dispatched during an `OnDataReady` call is dispatched with the penalty
counter below the limit computed on entry, the penalty threshold of the class
times 1000 in `unsigned long` arithmetic, and the send queue size below the soft
sendq ceiling of the class on entry; and a dispatcher call that returns with
either condition failing is the last of that call. -/
theorem OnDataReady_flood_gate (PB : Dispatcher) (MaxLine : Nat) (recvq : List Byte)
    (u : Session)
    (hb : HasPrivPermission u "users/flood/increased-buffers" = false)
    (hf : HasPrivPermission u "users/flood/no-fakelag" = false) :
    (∀ d ∈ (OnDataReady PB MaxLine recvq u).dispatched,
      d.handed.CommandFloodPenalty < (u.MyClass.GetPenaltyThreshold * 1000) % 2 ^ 64 ∧
      d.handed.SendQSize < u.MyClass.GetSendqSoftMax) ∧
    (∀ pre d post, (OnDataReady PB MaxLine recvq u).dispatched = pre ++ d :: post →
      ¬ (d.returned.CommandFloodPenalty < (u.MyClass.GetPenaltyThreshold * 1000) % 2 ^ 64 ∧
        d.returned.SendQSize < u.MyClass.GetSendqSoftMax) → post = []) := by
  have hl := OnDataReady_linked PB MaxLine recvq u
  rw [penaltymax_of_no_priv u hf, sendqmax_of_no_priv u hb] at hl
  constructor
  · intro d hd
    obtain ⟨r0, u0, rfl, _, h3, h4, _⟩ := hl.mem hd
    exact ⟨h3, h4⟩
  · intro pre d post htr hno
    rw [htr] at hl
    have h2 := (Linked.split pre hl).2.2
    cases post with
    | nil => rfl
    | cons e es =>
      simp only [Linked] at h2
      exact absurd ⟨h2.1, h2.2.1⟩ hno

theorem OnDataReady_flood_gate_witness :
    HasPrivPermission guest "users/flood/increased-buffers" = false ∧
    HasPrivPermission guest "users/flood/no-fakelag" = false ∧
    ((∀ d ∈ (OnDataReady idle 512 [97, 10] guest).dispatched,
      d.handed.CommandFloodPenalty < (guest.MyClass.GetPenaltyThreshold * 1000) % 2 ^ 64 ∧
      d.handed.SendQSize < guest.MyClass.GetSendqSoftMax) ∧
    (∀ pre d post, (OnDataReady idle 512 [97, 10] guest).dispatched = pre ++ d :: post →
      ¬ (d.returned.CommandFloodPenalty < (guest.MyClass.GetPenaltyThreshold * 1000) % 2 ^ 64 ∧
        d.returned.SendQSize < guest.MyClass.GetSendqSoftMax) → post = [])) :=
  ⟨rfl, rfl, OnDataReady_flood_gate idle 512 [97, 10] guest rfl rfl⟩

/-- C7 as stated fails: `lagging` has no privilege, its class has a penalty
threshold of 10 and its penalty counter is 5000, which is not below 10, and its
line is dispatched all the same. -/
theorem penalty_threshold_counterexample :
    ¬ (∀ d ∈ (OnDataReady idle 512 [97, 10] lagging).dispatched,
        d.handed.CommandFloodPenalty < lagging.MyClass.GetPenaltyThreshold ∧
        d.handed.SendQSize < lagging.MyClass.GetSendqSoftMax) := by
  intro h
  have h1 := (h laggingPass (List.Mem.head _)).1
  revert h1
  decide

/-- C8, as the code has it: with a class penalty threshold of 10, that is a
penalty limit of 10000, a dispatcher that adds 1000 to the penalty counter per
line and changes nothing else, a penalty counter starting at 0, no bypass
privilege, a class with `fakelag` off, a send queue below the soft ceiling and a
`recvq` within the class maximum, one `OnDataReady` call on a `recvq` holding
eleven complete lines dispatches exactly the first ten, sanitized and in order,
then quits the user with the reason "Excess Flood"; the eleventh line is not
dispatched and stays in `recvq`. -/
theorem OnDataReady_eleven_lines (MaxLine : Nat) (lines : List (List Byte)) (last : List Byte)
    (u : Session) (hlen : lines.length = 10) (hlf : ∀ l ∈ lines, LF ∉ l)
    (hq : u.quitting = false)
    (hb : HasPrivPermission u "users/flood/increased-buffers" = false)
    (hf : HasPrivPermission u "users/flood/no-fakelag" = false)
    (hthr : u.MyClass.GetPenaltyThreshold = 10) (hfl : u.MyClass.fakelag = false)
    (hpen : u.CommandFloodPenalty = 0) (hsq : u.SendQSize < u.MyClass.GetSendqSoftMax)
    (hrq : (joinLines lines ++ (last ++ [LF])).length ≤ u.MyClass.GetRecvqMax) :
    (OnDataReady (charging 1000) MaxLine (joinLines lines ++ (last ++ [LF])) u).dispatched.map
        (fun d => d.line) = lines.map (sanitize (maxmessage MaxLine)) ∧
    (OnDataReady (charging 1000) MaxLine (joinLines lines ++ (last ++ [LF])) u).quit =
      some "Excess Flood" ∧
    (OnDataReady (charging 1000) MaxLine (joinLines lines ++ (last ++ [LF])) u).user.quitting =
      true ∧
    (OnDataReady (charging 1000) MaxLine (joinLines lines ++ (last ++ [LF])) u).recvq =
      last ++ [LF] := by
  have hpm : penaltymax u = 10000 := by
    rw [penaltymax_of_no_priv u hf, hthr]
    decide
  have hsm : sendqmax u = u.MyClass.GetSendqSoftMax := sendqmax_of_no_priv u hb
  unfold OnDataReady
  rw [if_neg (by simp [hq]), if_neg (by intro h; exact absurd h.1 (Nat.not_lt.mpr hrq)), hpm, hsm]
  generalize maxmessage MaxLine = mm
  obtain ⟨g1, g2, g3, g4, g5⟩ := charging_gate 1000 10000 u.MyClass.GetSendqSoftMax mm
    (by decide) lines u hq hsq (by rw [hpen, hlen])
  obtain ⟨k1, k2, k3, k4⟩ := consume_lines (charging 1000) 10000 u.MyClass.GetSendqSoftMax mm
    lines (last ++ [LF]) u ((joinLines lines ++ (last ++ [LF])).length + 1)
    ((last ++ [LF]).length + 1) hlf g1 (Nat.lt_succ_self _) (Nat.lt_succ_self _)
  rw [hpen, hlen] at g2
  have hng : ¬ ((afterLines (charging 1000) mm lines u).CommandFloodPenalty < 10000 ∧
      (afterLines (charging 1000) mm lines u).SendQSize < u.MyClass.GetSendqSoftMax) := by
    rw [g2]; intro h; exact absurd h.1 (by decide)
  have hyes : (afterLines (charging 1000) mm lines u).CommandFloodPenalty ≥ 10000 ∧
      (!(afterLines (charging 1000) mm lines u).MyClass.fakelag) = true := by
    rw [g2, g4, hfl]; exact ⟨by decide, rfl⟩
  have hfin : consume (charging 1000) 10000 u.MyClass.GetSendqSoftMax mm
      ((last ++ [LF]).length + 1) (last ++ [LF]) (afterLines (charging 1000) mm lines u) =
      ⟨last ++ [LF], QuitUser (afterLines (charging 1000) mm lines u), [],
        some "Excess Flood"⟩ := by
    rw [consume_succ, if_neg hng, if_pos hyes]
  rw [hfin] at k1 k2 k3 k4
  refine ⟨?_, k3, ?_, k1⟩
  · rw [k4]; simp
  · rw [k2]; exact QuitUser_quitting _

theorem OnDataReady_eleven_lines_witness :
    (List.replicate 10 ([97] : List Byte)).length = 10 ∧
    (∀ l ∈ List.replicate 10 ([97] : List Byte), LF ∉ l) ∧
    guest.quitting = false ∧
    HasPrivPermission guest "users/flood/increased-buffers" = false ∧
    HasPrivPermission guest "users/flood/no-fakelag" = false ∧
    guest.MyClass.GetPenaltyThreshold = 10 ∧ guest.MyClass.fakelag = false ∧
    guest.CommandFloodPenalty = 0 ∧ guest.SendQSize < guest.MyClass.GetSendqSoftMax ∧
    (joinLines (List.replicate 10 [97]) ++ ([98] ++ [LF])).length ≤ guest.MyClass.GetRecvqMax ∧
    ((OnDataReady (charging 1000) 512 (joinLines (List.replicate 10 [97]) ++ ([98] ++ [LF]))
        guest).dispatched.map (fun d => d.line) =
        (List.replicate 10 [97]).map (sanitize (maxmessage 512)) ∧
    (OnDataReady (charging 1000) 512 (joinLines (List.replicate 10 [97]) ++ ([98] ++ [LF]))
        guest).quit = some "Excess Flood" ∧
    (OnDataReady (charging 1000) 512 (joinLines (List.replicate 10 [97]) ++ ([98] ++ [LF]))
        guest).user.quitting = true ∧
    (OnDataReady (charging 1000) 512 (joinLines (List.replicate 10 [97]) ++ ([98] ++ [LF]))
        guest).recvq = [98] ++ [LF]) :=
  ⟨rfl, by decide, rfl, rfl, rfl, rfl, rfl, rfl, by decide, by decide,
    OnDataReady_eleven_lines 512 (List.replicate 10 [97]) [98] guest rfl (by decide) rfl rfl rfl
      rfl rfl rfl (by decide) (by decide)⟩

/-- C8 as stated fails: with the class penalty threshold 10 and a dispatcher that
adds 1 to the penalty counter per line, the counter is 11 after eleven lines, far
below the limit of 10000: all eleven lines are dispatched and the user is not
quit. -/
theorem eleven_lines_counterexample :
    (OnDataReady (charging 1) 512 elevenLines guest).dispatched.length = 11 ∧
    (OnDataReady (charging 1) 512 elevenLines guest).quit = none ∧
    (OnDataReady (charging 1) 512 elevenLines guest).user.quitting = false ∧
    ¬ ((OnDataReady (charging 1) 512 elevenLines guest).dispatched.length = 10 ∧
      (OnDataReady (charging 1) 512 elevenLines guest).quit = some "Excess Flood") := by
  decide

/-- C9: take an `OnDataReady` call that got past the check of the `recvq` length
and stopped consuming on a state (the one its last dispatcher call returned, or
the one on entry) in which the user is not quitting and the penalty counter is
at or above the penalty limit computed on entry.  The call quits the user with
the reason "Excess Flood" if and only if `fakelag` is off in the class of that
state, and the user is then quitting; when `fakelag` is on the call quits
nobody, leaves the state as it is, not quitting, and `recvq` still holds,
undispatched, all that follows the last dispatched line. -/
theorem OnDataReady_excess_flood (PB : Dispatcher) (MaxLine : Nat) (recvq : List Byte)
    (u : Session)
    (hr : ¬ (recvq.length > u.MyClass.GetRecvqMax ∧
      (!HasPrivPermission u "users/flood/increased-buffers") = true))
    (hnq : (stoppedAt u (OnDataReady PB MaxLine recvq u).dispatched).quitting = false)
    (hpen : penaltymax u ≤
      (stoppedAt u (OnDataReady PB MaxLine recvq u).dispatched).CommandFloodPenalty) :
    ((OnDataReady PB MaxLine recvq u).quit = some "Excess Flood" ↔
      (stoppedAt u (OnDataReady PB MaxLine recvq u).dispatched).MyClass.fakelag = false) ∧
    ((stoppedAt u (OnDataReady PB MaxLine recvq u).dispatched).MyClass.fakelag = false →
      (OnDataReady PB MaxLine recvq u).user.quitting = true) ∧
    ((stoppedAt u (OnDataReady PB MaxLine recvq u).dispatched).MyClass.fakelag = true →
      (OnDataReady PB MaxLine recvq u).quit = none ∧
      (OnDataReady PB MaxLine recvq u).user =
        stoppedAt u (OnDataReady PB MaxLine recvq u).dispatched ∧
      (OnDataReady PB MaxLine recvq u).user.quitting = false ∧
      ∃ pre, recvq = pre ++ (OnDataReady PB MaxLine recvq u).recvq ∧
        pre.count LF = (OnDataReady PB MaxLine recvq u).dispatched.length) := by
  have hq : u.quitting = false := by
    cases h : u.quitting with
    | false => rfl
    | true =>
      rw [OnDataReady_quitting _ _ _ _ h] at hnq
      simp only [stoppedAt] at hnq
      rw [h] at hnq
      exact absurd hnq (by decide)
  have hpre : ∃ pre, recvq = pre ++ (OnDataReady PB MaxLine recvq u).recvq ∧
      pre.count LF = (OnDataReady PB MaxLine recvq u).dispatched.length := by
    unfold OnDataReady
    rw [if_neg (by simp [hq]), if_neg hr]
    obtain ⟨pre, h1, h2, _, _⟩ := consume_erases PB (penaltymax u) (sendqmax u)
      (maxmessage MaxLine) (recvq.length + 1) recvq u
    exact ⟨pre, h1, h2⟩
  have hs := OnDataReady_stopped PB MaxLine recvq u hq hr
  revert hs hnq hpen hpre
  generalize OnDataReady PB MaxLine recvq u = r
  generalize penaltymax u = pm
  generalize sendqmax u = sm
  intro hnq hpen hpre hs
  generalize stoppedAt u r.dispatched = s at hnq hpen hs ⊢
  rcases hs with h | h | h | h
  · rw [h.2.1] at hnq; exact absurd hnq (by decide)
  · exact absurd hpen (Nat.not_le_of_lt h.1)
  · obtain ⟨_, _, hfl, hu, hqt⟩ := h
    refine ⟨⟨fun _ => hfl, fun _ => hqt⟩, fun _ => ?_, fun ht => ?_⟩
    · rw [hu]; exact QuitUser_quitting s
    · rw [hfl] at ht; exact absurd ht (by decide)
  · obtain ⟨_, hno, hu, hqt⟩ := h
    have hfl : s.MyClass.fakelag = true := by
      cases hf : s.MyClass.fakelag with
      | true => rfl
      | false => exact absurd ⟨hpen, hf⟩ hno
    refine ⟨⟨fun hx => ?_, fun hx => ?_⟩, fun hx => ?_, fun _ => ⟨hqt, hu, ?_, hpre⟩⟩
    · rw [hqt] at hx; exact absurd hx (by decide)
    · rw [hfl] at hx; exact absurd hx (by decide)
    · rw [hfl] at hx; exact absurd hx (by decide)
    · rw [hu]; exact hnq

theorem OnDataReady_excess_flood_witness :
    ¬ (twoLines.length > guest.MyClass.GetRecvqMax ∧
      (!HasPrivPermission guest "users/flood/increased-buffers") = true) ∧
    (stoppedAt guest (OnDataReady (charging 10000) 512 twoLines guest).dispatched).quitting
      = false ∧
    penaltymax guest ≤
      (stoppedAt guest
        (OnDataReady (charging 10000) 512 twoLines guest).dispatched).CommandFloodPenalty ∧
    (((OnDataReady (charging 10000) 512 twoLines guest).quit = some "Excess Flood" ↔
      (stoppedAt guest
        (OnDataReady (charging 10000) 512 twoLines guest).dispatched).MyClass.fakelag = false) ∧
    ((stoppedAt guest
        (OnDataReady (charging 10000) 512 twoLines guest).dispatched).MyClass.fakelag = false →
      (OnDataReady (charging 10000) 512 twoLines guest).user.quitting = true) ∧
    ((stoppedAt guest
        (OnDataReady (charging 10000) 512 twoLines guest).dispatched).MyClass.fakelag = true →
      (OnDataReady (charging 10000) 512 twoLines guest).quit = none ∧
      (OnDataReady (charging 10000) 512 twoLines guest).user =
        stoppedAt guest (OnDataReady (charging 10000) 512 twoLines guest).dispatched ∧
      (OnDataReady (charging 10000) 512 twoLines guest).user.quitting = false ∧
      ∃ pre, twoLines = pre ++ (OnDataReady (charging 10000) 512 twoLines guest).recvq ∧
        pre.count LF = (OnDataReady (charging 10000) 512 twoLines guest).dispatched.length)) :=
  ⟨by decide, by decide, by decide,
    OnDataReady_excess_flood (charging 10000) 512 twoLines guest
      (by decide) (by decide) (by decide)⟩

/-- C11, as the code has it: `AddWriteBuf` does nothing at all when an earlier
call has refused output (`quitting_sendq` is set); otherwise it refuses the data
exactly when the user is not quitting, lacks the increased-buffers privilege,
and the send queue size plus the data length is strictly greater than the hard
sendq ceiling of the class, and on refusal the send queue is left unchanged, the
connection is marked (its `quitting_sendq` flag is set, `quitting` is not touched)
and the user is added to the deferred cull list; in every remaining case the
data is appended to the send queue and nothing else changes. -/
theorem AddWriteBuf_cases (s : SendSide) (data : List Byte) :
    (s.quitting_sendq = true → AddWriteBuf s data = s) ∧
    (s.quitting_sendq = false →
      (s.quitting = false ∧ s.HasPrivPermission "users/flood/increased-buffers" = false ∧
        s.GetSendqHardMax < s.sendq.length + data.length) →
      (AddWriteBuf s data).sendq = s.sendq ∧
      (AddWriteBuf s data).quitting_sendq = true ∧
      (AddWriteBuf s data).SQlist = s.SQlist ++ [s.uuid] ∧
      (AddWriteBuf s data).quitting = s.quitting) ∧
    (s.quitting_sendq = false →
      ¬ (s.quitting = false ∧ s.HasPrivPermission "users/flood/increased-buffers" = false ∧
        s.GetSendqHardMax < s.sendq.length + data.length) →
      (AddWriteBuf s data).sendq = s.sendq ++ data ∧
      (AddWriteBuf s data).quitting_sendq = false ∧
      (AddWriteBuf s data).SQlist = s.SQlist ∧
      (AddWriteBuf s data).quitting = s.quitting) := by
  refine ⟨?_, ?_, ?_⟩
  · intro h
    exact AddWriteBuf_flagged s data h
  · intro h hc
    obtain ⟨h1, h2, h3⟩ := hc
    have hcond : (!s.quitting) = true ∧ s.sendq.length + data.length > s.GetSendqHardMax ∧
        (!s.HasPrivPermission "users/flood/increased-buffers") = true := by
      rw [h1, h2]; exact ⟨rfl, h3, rfl⟩
    unfold AddWriteBuf
    rw [if_neg (by simp [h]), if_pos hcond]
    exact ⟨rfl, rfl, rfl, rfl⟩
  · intro h hc
    have hcond : ¬ ((!s.quitting) = true ∧ s.sendq.length + data.length > s.GetSendqHardMax ∧
        (!s.HasPrivPermission "users/flood/increased-buffers") = true) := by
      intro hx
      apply hc
      obtain ⟨h1, h2, h3⟩ := hx
      refine ⟨?_, ?_, h2⟩
      · simpa using h1
      · simpa using h3
    unfold AddWriteBuf
    rw [if_neg (by simp [h]), if_neg hcond]
    exact ⟨rfl, h, rfl, rfl⟩

/-- C11 as stated fails: `refusedWriter` is in none of the refusal cases, since an
earlier refusal happened, and the byte handed to `AddWriteBuf` is not appended to
its send queue. -/
theorem AddWriteBuf_after_refusal_counterexample :
    ¬ (refusedWriter.quitting = false ∧
        refusedWriter.HasPrivPermission "users/flood/increased-buffers" = false ∧
        refusedWriter.GetSendqHardMax < refusedWriter.sendq.length + [7].length ∧
        refusedWriter.quitting_sendq = false) ∧
    (AddWriteBuf refusedWriter [7]).sendq ≠ refusedWriter.sendq ++ [7] := by
  decide

/-- C12, as the code has it: after `AddWriteBuf` has refused output for a connection
because of the hard sendq ceiling, every later `AddWriteBuf` call for that
connection leaves it untouched: nothing is appended to the send queue.  Output
for a user that is quitting for another reason (`quitting` set, `quitting_sendq`
clear), such as its closing diagnostic, is still appended, whatever the size of
the send queue. -/
theorem AddWriteBuf_after_refusal (s : SendSide) (data later : List Byte) :
    (s.quitting_sendq = false → s.quitting = false →
      s.HasPrivPermission "users/flood/increased-buffers" = false →
      s.GetSendqHardMax < s.sendq.length + data.length →
      AddWriteBuf (AddWriteBuf s data) later = AddWriteBuf s data ∧
      (AddWriteBuf (AddWriteBuf s data) later).sendq = s.sendq) ∧
    (s.quitting_sendq = false → s.quitting = true →
      (AddWriteBuf s later).sendq = s.sendq ++ later) := by
  constructor
  · intro h1 h2 h3 h4
    have hc : (!s.quitting) = true ∧ s.sendq.length + data.length > s.GetSendqHardMax ∧
        (!s.HasPrivPermission "users/flood/increased-buffers") = true := by
      rw [h2, h3]; exact ⟨rfl, h4, rfl⟩
    have hfirst : AddWriteBuf s data = AddSQItem { s with quitting_sendq := true } := by
      unfold AddWriteBuf
      rw [if_neg (by simp [h1]), if_pos hc]
    rw [hfirst]
    rw [AddWriteBuf_flagged _ later rfl]
    exact ⟨rfl, rfl⟩
  · intro h1 h2
    unfold AddWriteBuf
    rw [if_neg (by simp [h1]), if_neg (by simp [h2])]
    rfl

/-- C12 as stated fails: `writer` holds 6 bytes under a ceiling of 8; a write of 3
bytes is refused, and the byte written afterwards is not appended: the send queue
still holds the 6 bytes. -/
theorem AddWriteBuf_later_write_counterexample :
    (AddWriteBuf writer [7, 8, 9]).quitting_sendq = true ∧
    (AddWriteBuf writer [7, 8, 9]).SQlist = [writer.uuid] ∧
    (AddWriteBuf (AddWriteBuf writer [7, 8, 9]) [10]).sendq = [1, 2, 3, 4, 5, 6] ∧
    (AddWriteBuf (AddWriteBuf writer [7, 8, 9]) [10]).sendq ≠
      (AddWriteBuf writer [7, 8, 9]).sendq ++ [10] := by
  decide

/-- C13: if on entry to `OnDataReady` the user is not quitting and lacks the
users/flood/increased-buffers privilege, then a `recvq` longer than the recvq
maximum of the class makes the call quit the user with the reason
"RecvQ exceeded", dispatch no line and leave `recvq` as it was; and a `recvq`
whose length is at most that maximum, in particular equal to it, is never quit
for "RecvQ exceeded". -/
theorem OnDataReady_recvq_exceeded (PB : Dispatcher) (MaxLine : Nat) (recvq : List Byte)
    (u : Session) (hq : u.quitting = false)
    (hp : HasPrivPermission u "users/flood/increased-buffers" = false) :
    (u.MyClass.GetRecvqMax < recvq.length →
      (OnDataReady PB MaxLine recvq u).quit = some "RecvQ exceeded" ∧
      (OnDataReady PB MaxLine recvq u).user.quitting = true ∧
      (OnDataReady PB MaxLine recvq u).dispatched = [] ∧
      (OnDataReady PB MaxLine recvq u).recvq = recvq) ∧
    (recvq.length ≤ u.MyClass.GetRecvqMax →
      (OnDataReady PB MaxLine recvq u).quit ≠ some "RecvQ exceeded") := by
  constructor
  · intro hlen
    have hc : recvq.length > u.MyClass.GetRecvqMax ∧
        (!HasPrivPermission u "users/flood/increased-buffers") = true := ⟨hlen, by rw [hp]; rfl⟩
    unfold OnDataReady
    rw [if_neg (by simp [hq]), if_pos hc]
    exact ⟨rfl, QuitUser_quitting u, rfl, rfl⟩
  · intro hlen
    have hr : ¬ (recvq.length > u.MyClass.GetRecvqMax ∧
        (!HasPrivPermission u "users/flood/increased-buffers") = true) :=
      fun h => absurd h.1 (Nat.not_lt.mpr hlen)
    have hs := OnDataReady_stopped PB MaxLine recvq u hq hr
    rcases hs with h | h | h | h
    · rw [h.2.2.2]; exact fun e => absurd e (by decide)
    · rw [h.2.2.2.2]; exact fun e => absurd e (by decide)
    · rw [h.2.2.2.2]; exact fun e => absurd e (by decide)
    · rw [h.2.2.2]; exact fun e => absurd e (by decide)

theorem OnDataReady_recvq_exceeded_witness :
    guest.quitting = false ∧
    HasPrivPermission guest "users/flood/increased-buffers" = false ∧
    ((guest.MyClass.GetRecvqMax < (List.replicate 4097 (97 : Byte)).length →
      (OnDataReady idle 512 (List.replicate 4097 97) guest).quit = some "RecvQ exceeded" ∧
      (OnDataReady idle 512 (List.replicate 4097 97) guest).user.quitting = true ∧
      (OnDataReady idle 512 (List.replicate 4097 97) guest).dispatched = [] ∧
      (OnDataReady idle 512 (List.replicate 4097 97) guest).recvq = List.replicate 4097 97) ∧
    ((List.replicate 4097 (97 : Byte)).length ≤ guest.MyClass.GetRecvqMax →
      (OnDataReady idle 512 (List.replicate 4097 97) guest).quit ≠ some "RecvQ exceeded")) :=
  ⟨rfl, rfl, OnDataReady_recvq_exceeded idle 512 (List.replicate 4097 97) guest rfl rfl⟩

/-- C14: on the inference path (empty explicit name) `SetClass` selects the first
class of `Config->Classes`, in definition order, that passes the per-candidate
checks: when a class is found, the list is `pre ++ c :: post` where `c` passes, no
class of `pre` passes, and the classes examined are `pre` and `c` and no class
after it, and `c` becomes the class of the user; nothing is found exactly when no
class passes, and the class of the user is then left as it was.  A candidate the
`OnSetConnectClass` hook force-accepts passes and one it force-rejects fails.  In
particular, with the classes "trusted" for the hosts 10.0.0.0/8 and "default" for
every host, in this order, no module and a matcher for which 10.1.2.3 matches
10.0.0.0/8 while 8.8.8.8 matches `*` and not 10.0.0.0/8, the address 10.1.2.3
selects "trusted" and the address 8.8.8.8 selects "default". -/
theorem SetClass_first_match (sv : Admission.Server) (u : Admission.LocalUser) :
    (∀ c, Admission.SetClass_found sv u "" = some c →
      (∃ pre post, sv.Classes = pre ++ c :: post ∧ Admission.passes sv u c = true ∧
        (∀ x ∈ pre, Admission.passes sv u x = false) ∧
        (Admission.inferScan sv u sv.Classes).2 = pre ++ [c]) ∧
      (Admission.SetClass sv u "").MyClass = some c) ∧
    (Admission.SetClass_found sv u "" = none ↔
      ∀ x ∈ sv.Classes, Admission.passes sv u x = false) ∧
    (Admission.SetClass_found sv u "" = none → Admission.SetClass sv u "" = u) ∧
    (∀ c, sv.OnSetConnectClass u c = Admission.ModResult.MOD_RES_ALLOW →
      Admission.passes sv u c = true) ∧
    (∀ c, sv.OnSetConnectClass u c = Admission.ModResult.MOD_RES_DENY →
      Admission.passes sv u c = false) ∧
    (∀ (M : String → String → Bool) (P : Admission.LocalUser → String → String → String → Bool)
      (v : Admission.LocalUser),
      M "10.1.2.3" "10.0.0.0/8" = true → M "8.8.8.8" "10.0.0.0/8" = false →
      M "8.8.8.8" "*" = true →
      (v.GetIPString = "10.1.2.3" →
        (Admission.SetClass ⟨[trustedClass, defaultClass],
          fun _ _ => Admission.ModResult.MOD_RES_PASSTHRU, M, P⟩ v "").MyClass =
            some trustedClass) ∧
      (v.GetIPString = "8.8.8.8" → v.GetRealHost = "8.8.8.8" →
        (Admission.SetClass ⟨[trustedClass, defaultClass],
          fun _ _ => Admission.ModResult.MOD_RES_PASSTHRU, M, P⟩ v "").MyClass =
            some defaultClass)) := by
  obtain ⟨i1, i2, _⟩ := Admission.inferScan_spec sv u sv.Classes
  refine ⟨?_, ?_, ?_, ?_, ?_, ?_⟩
  · intro c hc
    refine ⟨i1 c (by rw [← Admission.SetClass_inferred]; exact hc), ?_⟩
    unfold Admission.SetClass
    rw [hc]
  · rw [Admission.SetClass_inferred]; exact i2
  · intro h
    unfold Admission.SetClass
    rw [h]
  · intro c h
    unfold Admission.passes
    rw [h]
  · intro c h
    unfold Admission.passes
    rw [h]
  · intro M P v h1 h2 h3
    constructor
    · intro hip
      have hp : Admission.passes ⟨[trustedClass, defaultClass],
          fun _ _ => Admission.ModResult.MOD_RES_PASSTHRU, M, P⟩ v trustedClass = true := by
        simp [Admission.passes, trustedClass, hip, h1]
      unfold Admission.SetClass
      rw [Admission.SetClass_inferred]
      simp only [Admission.inferScan_cons, hp, if_true]
    · intro hip hreal
      have hp1 : Admission.passes ⟨[trustedClass, defaultClass],
          fun _ _ => Admission.ModResult.MOD_RES_PASSTHRU, M, P⟩ v trustedClass = false := by
        simp [Admission.passes, trustedClass, hip, hreal, h2]
      have hp2 : Admission.passes ⟨[trustedClass, defaultClass],
          fun _ _ => Admission.ModResult.MOD_RES_PASSTHRU, M, P⟩ v defaultClass = true := by
        simp [Admission.passes, trustedClass, defaultClass, hip, h3]
      unfold Admission.SetClass
      rw [Admission.SetClass_inferred]
      simp [Admission.inferScan_cons, hp1, hp2]

/-- C15, as the code has it: on the explicit-name path (non-empty explicit name)
`SetClass` selects a class whose name equals the given name, and when several
classes of the list share that name it selects the last of them in list order,
the loop having no `break`; in particular it selects the class of that name when
there is only one.  The host pattern, limit, ports and type of the classes, the
user and the policy hook play no part in the choice: two servers with the same
class list select the same class for any two users. -/
theorem SetClass_explicit_name (sv : Admission.Server) (u : Admission.LocalUser)
    (explicit_name : String) (h : explicit_name ≠ "") :
    Admission.SetClass_found sv u explicit_name =
      (sv.Classes.filter (fun c => explicit_name = c.name)).getLast? ∧
    (∀ c, Admission.SetClass_found sv u explicit_name = some c →
      c ∈ sv.Classes ∧ c.name = explicit_name ∧
      (Admission.SetClass sv u explicit_name).MyClass = some c) ∧
    (∀ c, sv.Classes.filter (fun c => explicit_name = c.name) = [c] →
      (Admission.SetClass sv u explicit_name).MyClass = some c) ∧
    (∀ (sv2 : Admission.Server) (u2 : Admission.LocalUser), sv2.Classes = sv.Classes →
      Admission.SetClass_found sv2 u2 explicit_name =
        Admission.SetClass_found sv u explicit_name) := by
  have hfound : ∀ (s : Admission.Server) (v : Admission.LocalUser),
      Admission.SetClass_found s v explicit_name =
        (s.Classes.filter (fun c => explicit_name = c.name)).getLast? := by
    intro s v
    unfold Admission.SetClass_found
    rw [if_pos h, Admission.explicitScan_spec]
    cases (s.Classes.filter (fun c => decide (explicit_name = c.name))).getLast? <;> rfl
  refine ⟨hfound sv u, ?_, ?_, ?_⟩
  · intro c hc
    have hm : c ∈ sv.Classes.filter (fun c => decide (explicit_name = c.name)) := by
      rw [hfound] at hc
      exact List.mem_of_getLast?_eq_some hc.symm.symm
    rw [List.mem_filter] at hm
    refine ⟨hm.1, (of_decide_eq_true hm.2).symm, ?_⟩
    unfold Admission.SetClass
    rw [hc]
  · intro c hc
    have : Admission.SetClass_found sv u explicit_name = some c := by
      rw [hfound, hc]; rfl
    unfold Admission.SetClass
    rw [this]
  · intro sv2 u2 hcl
    rw [hfound, hfound, hcl]

theorem SetClass_explicit_name_witness :
    ("default" : String) ≠ "" ∧
    (Admission.SetClass_found sampleServer visitor "default" =
      (sampleServer.Classes.filter (fun c => "default" = c.name)).getLast? ∧
    (∀ c, Admission.SetClass_found sampleServer visitor "default" = some c →
      c ∈ sampleServer.Classes ∧ c.name = "default" ∧
      (Admission.SetClass sampleServer visitor "default").MyClass = some c) ∧
    (∀ c, sampleServer.Classes.filter (fun c => "default" = c.name) = [c] →
      (Admission.SetClass sampleServer visitor "default").MyClass = some c) ∧
    (∀ (sv2 : Admission.Server) (u2 : Admission.LocalUser),
      sv2.Classes = sampleServer.Classes →
      Admission.SetClass_found sv2 u2 "default" =
        Admission.SetClass_found sampleServer visitor "default")) :=
  ⟨by decide, SetClass_explicit_name sampleServer visitor "default" (by decide)⟩

/-- C15 as stated fails: `sampleServer` has two classes named "trusted",
`trustedClass` first and `trustedTwin` second, and the explicit name "trusted"
selects `trustedTwin`, not the first of them. -/
theorem SetClass_duplicate_name_counterexample :
    sampleServer.Classes = [trustedClass, trustedTwin, defaultClass] ∧
    trustedClass.name = "trusted" ∧ trustedTwin.name = "trusted" ∧
    (Admission.SetClass sampleServer visitor "trusted").MyClass = some trustedTwin ∧
    (Admission.SetClass sampleServer visitor "trusted").MyClass ≠ some trustedClass := by
  decide

/-- C16, as the code has it: after `SetClass` returns (either path) the class of
the user is the matched class when one was found, and is the class assigned
before the call when none was found, the user being then left untouched.  In
`FullConnect` the class is cleared before `SetClass` is called, so that after
these two statements the class of the user is exactly the resolution result,
whatever class was assigned before: no class when no candidate passes. -/
theorem SetClass_assignment (sv : Admission.Server) (u : Admission.LocalUser)
    (explicit_name : String) :
    (∀ c, Admission.SetClass_found sv u explicit_name = some c →
      Admission.SetClass sv u explicit_name = { u with MyClass := some c }) ∧
    (Admission.SetClass_found sv u explicit_name = none →
      Admission.SetClass sv u explicit_name = u) ∧
    (Admission.FullConnect_SetClass sv u).MyClass =
      Admission.SetClass_found sv { u with MyClass := none } "" := by
  refine ⟨?_, ?_, ?_⟩
  · intro c h
    unfold Admission.SetClass
    rw [h]
  · intro h
    unfold Admission.SetClass
    rw [h]
  · unfold Admission.FullConnect_SetClass Admission.SetClass
    cases Admission.SetClass_found sv { u with MyClass := none } "" <;> rfl

/-- C16 as stated fails: `visitor` is assigned to `cloneClass`, the server
`emptyServer` has no class, so the resolution finds nothing, and after `SetClass`
the user is still assigned to `cloneClass`. -/
theorem SetClass_keeps_class_counterexample :
    Admission.SetClass_found emptyServer visitor "" = none ∧
    (Admission.SetClass emptyServer visitor "").MyClass = some cloneClass ∧
    (Admission.SetClass emptyServer visitor "").MyClass ≠
      Admission.SetClass_found emptyServer visitor "" := by
  decide

/-- C17: for a user assigned to a class that is not a deny class, `CheckClass` with
clone counting on quits the user with the local clone-limit reason exactly when the
local ceiling of the class is nonzero and the local clone count is strictly
greater than it; with the global reason exactly when that is not so and the global
ceiling is nonzero and the global count is strictly greater than it; and quits
nobody otherwise, so that a zero ceiling never rejects and a count equal to the
ceiling is accepted.  With a local ceiling of 2 and no global ceiling the counts 1
and 2 are accepted and the count 3 is rejected with the local reason. -/
theorem CheckClass_clone_limits (now l g : Nat) (u : Admission.LocalUser)
    (a : Admission.ConnectClass) (h : u.MyClass = some a)
    (ht : a.type ≠ Admission.ClassTypes.CC_DENY) :
    ((Admission.CheckClass now l g u true).2 =
        some "No more connections allowed from your host via this connect class (local)" ↔
      a.GetMaxLocal ≠ 0 ∧ a.GetMaxLocal < l) ∧
    ((Admission.CheckClass now l g u true).2 =
        some "No more connections allowed from your host via this connect class (global)" ↔
      ¬ (a.GetMaxLocal ≠ 0 ∧ a.GetMaxLocal < l) ∧ a.GetMaxGlobal ≠ 0 ∧ a.GetMaxGlobal < g) ∧
    ((Admission.CheckClass now l g u true).2 = none ↔
      ¬ (a.GetMaxLocal ≠ 0 ∧ a.GetMaxLocal < l) ∧
      ¬ (a.GetMaxGlobal ≠ 0 ∧ a.GetMaxGlobal < g)) ∧
    ((Admission.CheckClass now l g u true).2 ≠ none →
      (Admission.CheckClass now l g u true).1.quitting = true) ∧
    (a.GetMaxLocal = 2 → a.GetMaxGlobal = 0 →
      (Admission.CheckClass now 1 g u true).2 = none ∧
      (Admission.CheckClass now 2 g u true).2 = none ∧
      (Admission.CheckClass now 3 g u true).2 =
        some "No more connections allowed from your host via this connect class (local)") := by
  have hmain := Admission.CheckClass_allow now l g u a h ht
  refine ⟨?_, ?_, ?_, ?_, ?_⟩
  · rw [hmain]
    by_cases h1 : a.GetMaxLocal ≠ 0 ∧ l > a.GetMaxLocal
    · rw [if_pos h1]; exact ⟨fun _ => h1, fun _ => rfl⟩
    · rw [if_neg h1]
      by_cases h2 : a.GetMaxGlobal ≠ 0 ∧ g > a.GetMaxGlobal
      · rw [if_pos h2]
        exact ⟨fun e => absurd (Option.some.inj e) (by decide), fun e => absurd e h1⟩
      · rw [if_neg h2]
        exact ⟨fun e => absurd e (by simp), fun e => absurd e h1⟩
  · rw [hmain]
    by_cases h1 : a.GetMaxLocal ≠ 0 ∧ l > a.GetMaxLocal
    · rw [if_pos h1]
      exact ⟨fun e => absurd (Option.some.inj e) (by decide), fun e => absurd h1 e.1⟩
    · rw [if_neg h1]
      by_cases h2 : a.GetMaxGlobal ≠ 0 ∧ g > a.GetMaxGlobal
      · rw [if_pos h2]; exact ⟨fun _ => ⟨h1, h2⟩, fun _ => rfl⟩
      · rw [if_neg h2]
        exact ⟨fun e => absurd e (by simp), fun e => absurd e.2 h2⟩
  · rw [hmain]
    by_cases h1 : a.GetMaxLocal ≠ 0 ∧ l > a.GetMaxLocal
    · rw [if_pos h1]
      exact ⟨fun e => absurd e (by simp), fun e => absurd h1 e.1⟩
    · rw [if_neg h1]
      by_cases h2 : a.GetMaxGlobal ≠ 0 ∧ g > a.GetMaxGlobal
      · rw [if_pos h2]
        exact ⟨fun e => absurd e (by simp), fun e => absurd h2 e.2⟩
      · rw [if_neg h2]; exact ⟨fun _ => ⟨h1, h2⟩, fun _ => rfl⟩
  · rw [hmain]
    by_cases h1 : a.GetMaxLocal ≠ 0 ∧ l > a.GetMaxLocal
    · rw [if_pos h1]; exact fun _ => Admission.QuitUser_marks u
    · rw [if_neg h1]
      by_cases h2 : a.GetMaxGlobal ≠ 0 ∧ g > a.GetMaxGlobal
      · rw [if_pos h2]; exact fun _ => Admission.QuitUser_marks u
      · rw [if_neg h2]; exact fun e => absurd rfl e
  · intro hl hg
    rw [Admission.CheckClass_allow now 1 g u a h ht, Admission.CheckClass_allow now 2 g u a h ht,
      Admission.CheckClass_allow now 3 g u a h ht, hl, hg]
    simp

theorem CheckClass_clone_limits_witness :
    visitor.MyClass = some cloneClass ∧ cloneClass.type ≠ Admission.ClassTypes.CC_DENY ∧
    (((Admission.CheckClass 1000 3 3 visitor true).2 =
        some "No more connections allowed from your host via this connect class (local)" ↔
      cloneClass.GetMaxLocal ≠ 0 ∧ cloneClass.GetMaxLocal < 3) ∧
    ((Admission.CheckClass 1000 3 3 visitor true).2 =
        some "No more connections allowed from your host via this connect class (global)" ↔
      ¬ (cloneClass.GetMaxLocal ≠ 0 ∧ cloneClass.GetMaxLocal < 3) ∧
        cloneClass.GetMaxGlobal ≠ 0 ∧ cloneClass.GetMaxGlobal < 3) ∧
    ((Admission.CheckClass 1000 3 3 visitor true).2 = none ↔
      ¬ (cloneClass.GetMaxLocal ≠ 0 ∧ cloneClass.GetMaxLocal < 3) ∧
      ¬ (cloneClass.GetMaxGlobal ≠ 0 ∧ cloneClass.GetMaxGlobal < 3)) ∧
    ((Admission.CheckClass 1000 3 3 visitor true).2 ≠ none →
      (Admission.CheckClass 1000 3 3 visitor true).1.quitting = true) ∧
    (cloneClass.GetMaxLocal = 2 → cloneClass.GetMaxGlobal = 0 →
      (Admission.CheckClass 1000 1 3 visitor true).2 = none ∧
      (Admission.CheckClass 1000 2 3 visitor true).2 = none ∧
      (Admission.CheckClass 1000 3 3 visitor true).2 =
        some "No more connections allowed from your host via this connect class (local)")) :=
  ⟨rfl, by decide, CheckClass_clone_limits 1000 3 3 visitor cloneClass rfl (by decide)⟩

/-- C18, as the code has it: `CheckClass` does not read the exempt flag.  Whether it
quits a user, and for which reason, is the same with the flag set and clear; a
user whose exempt flag is set and whose local clone count is above the nonzero
local ceiling of its class is quit for the local clone limit.  What the flag
bypasses is `CheckLines`: for a user whose exempt flag is set it applies no line
and returns false. -/
theorem CheckClass_ignores_exempt (now l g : Nat) (u : Admission.LocalUser) (cc : Bool) :
    (Admission.CheckClass now l g { u with exempt := true } cc).2 =
      (Admission.CheckClass now l g { u with exempt := false } cc).2 ∧
    (∀ a, u.MyClass = some a → a.type ≠ Admission.ClassTypes.CC_DENY →
      a.GetMaxLocal ≠ 0 → a.GetMaxLocal < l →
      (Admission.CheckClass now l g { u with exempt := true } true).2 =
        some "No more connections allowed from your host via this connect class (local)" ∧
      (Admission.CheckClass now l g { u with exempt := true } true).1.quitting = true) ∧
    (∀ (MatchesLine : String → Admission.LocalUser → Option String)
      (Apply : String → Admission.LocalUser → Admission.LocalUser) (doZline : Bool),
      Admission.CheckLines MatchesLine Apply { u with exempt := true } doZline =
        (false, { u with exempt := true })) := by
  refine ⟨?_, ?_, ?_⟩
  · rw [Admission.CheckClass_exempt now l g u true cc, Admission.CheckClass_exempt now l g u false cc]
  · intro a h ht h1 h2
    have := Admission.CheckClass_allow now l g { u with exempt := true } a h ht
    rw [this, if_pos ⟨h1, h2⟩]
    exact ⟨rfl, Admission.QuitUser_marks _⟩
  · intro ML Ap z
    unfold Admission.CheckLines
    rfl

/-- C18 as stated fails: `exemptVisitor` has its exempt flag set, its class has a
local ceiling of 2, and with a local clone count of 3 `CheckClass` quits it for the
local clone limit. -/
theorem CheckClass_exempt_counterexample :
    exemptVisitor.exempt = true ∧
    (Admission.CheckClass 1000 3 3 exemptVisitor true).2 =
      some "No more connections allowed from your host via this connect class (local)" ∧
    (Admission.CheckClass 1000 3 3 exemptVisitor true).1.quitting = true := by
  decide

/-- C19: if the id returned by `NextAlreadySentId` differs from the `already_sent`
stamp of every user, then for every source, channel list, module hook and user
state one `ForEachNeighbor` call executes the handler at most once on any
connection, and exactly once on every local connection that is a member of at
least one included channel and has no entry in the exception map, however many
of the channels it is in; with no module, a source in two channels and
`include_self` false, another local user who is in both channels is delivered to
exactly once. -/
theorem ForEachNeighbor_once (w : Users) (hook : NeighborHook) (newid : Nat)
    (source : UserId) (chans : List Channel) (include_self : Bool)
    (hnew : ∀ x, w.already_sent x ≠ newid) :
    (∀ x, (ForEachNeighbor w hook newid source chans include_self).executed.count x ≤ 1) ∧
    (∀ x, w.IS_LOCAL x = true →
      (∃ c ∈ (hook source chans (selfException source include_self)).1, x ∈ c) →
      x ∉ (hook source chans (selfException source include_self)).2.entries.map Prod.fst →
      (ForEachNeighbor w hook newid source chans include_self).executed.count x = 1) ∧
    (∀ (other : UserId) (c1 c2 : Channel), other ≠ source → w.IS_LOCAL other = true →
      other ∈ c1 → other ∈ c2 →
      (ForEachNeighbor w noModule newid source [c1, c2] false).executed.count other = 1) := by
  refine ⟨?_, ?_, ?_⟩
  · intro x
    rw [ForEachNeighbor_count]
    split <;> split <;> simp
  · intro x hl hc hk
    rw [ForEachNeighbor_count, if_neg hk, if_pos ⟨hc, hl, hnew x⟩]
  · intro other c1 c2 hne hl h1 _
    rw [ForEachNeighbor_count]
    have hk : other ∉ (noModule source [c1, c2] (selfException source false)).2.entries.map
        Prod.fst := by
      simp [noModule, selfException, hne]
    rw [if_neg hk, if_pos ⟨⟨c1, by simp [noModule], h1⟩, hl, hnew other⟩]

theorem ForEachNeighbor_once_witness :
    (∀ x, everybodyLocal.already_sent x ≠ 1) ∧
    ((∀ x, (ForEachNeighbor everybodyLocal noModule 1 1 [[1, 2], [1, 2]] false).executed.count x
      ≤ 1) ∧
    (∀ x, everybodyLocal.IS_LOCAL x = true →
      (∃ c ∈ (noModule 1 [[1, 2], [1, 2]] (selfException 1 false)).1, x ∈ c) →
      x ∉ (noModule 1 [[1, 2], [1, 2]] (selfException 1 false)).2.entries.map Prod.fst →
      (ForEachNeighbor everybodyLocal noModule 1 1 [[1, 2], [1, 2]] false).executed.count x = 1) ∧
    (∀ (other : UserId) (c1 c2 : Channel), other ≠ 1 → everybodyLocal.IS_LOCAL other = true →
      other ∈ c1 → other ∈ c2 →
      (ForEachNeighbor everybodyLocal noModule 1 1 [c1, c2] false).executed.count other = 1)) :=
  ⟨fun _ => (by decide : (0 : Nat) ≠ 1),
    ForEachNeighbor_once everybodyLocal noModule 1 1 [[1, 2], [1, 2]] false
      (fun _ => (by decide : (0 : Nat) ≠ 1))⟩

/-- C20: in `ForEachNeighbor` a connection with an entry in the exception map is
delivered to according to that entry alone: the handler is executed on it once
when the flag of the entry is true and the connection is local and not quitting,
and never otherwise, whatever the channels are.  So an entry with the flag false
suppresses delivery even to a member of included channels, and an entry with the
flag true on a local, non-quitting connection that shares no channel with the
source gets the handler executed exactly once. -/
theorem ForEachNeighbor_exception_entry (w : Users) (hook : NeighborHook) (newid : Nat)
    (source : UserId) (chans : List Channel) (include_self : Bool) (x : UserId) (flag : Bool)
    (h : (x, flag) ∈ (hook source chans (selfException source include_self)).2.entries) :
    (ForEachNeighbor w hook newid source chans include_self).executed.count x =
      (if flag = true ∧ w.IS_LOCAL x = true ∧ w.quitting x = false then 1 else 0) ∧
    (flag = false →
      (ForEachNeighbor w hook newid source chans include_self).executed.count x = 0) ∧
    (flag = true → w.IS_LOCAL x = true → w.quitting x = false →
      (ForEachNeighbor w hook newid source chans include_self).executed.count x = 1) := by
  have hk : x ∈ (hook source chans (selfException source include_self)).2.entries.map
      Prod.fst := List.mem_map.mpr ⟨(x, flag), h, rfl⟩
  have hflag := entry_flag (hook source chans (selfException source include_self)).2.nodup h
  have hcount : (ForEachNeighbor w hook newid source chans include_self).executed.count x =
      (if flag = true ∧ w.IS_LOCAL x = true ∧ w.quitting x = false then 1 else 0) := by
    rw [ForEachNeighbor_count, if_pos hk]
    simp only [hflag]
  refine ⟨hcount, ?_, ?_⟩
  · intro hf
    rw [hcount, if_neg (by simp [hf])]
  · intro hf hl hq
    rw [hcount, if_pos ⟨hf, hl, hq⟩]

theorem ForEachNeighbor_exception_entry_witness :
    (5, true) ∈ (pickyModule 1 [[1, 2, 3]] (selfException 1 false)).2.entries ∧
    ((ForEachNeighbor everybodyLocal pickyModule 1 1 [[1, 2, 3]] false).executed.count 5 =
      (if true = true ∧ everybodyLocal.IS_LOCAL 5 = true ∧ everybodyLocal.quitting 5 = false
        then 1 else 0) ∧
    (true = false →
      (ForEachNeighbor everybodyLocal pickyModule 1 1 [[1, 2, 3]] false).executed.count 5 = 0) ∧
    (true = true → everybodyLocal.IS_LOCAL 5 = true → everybodyLocal.quitting 5 = false →
      (ForEachNeighbor everybodyLocal pickyModule 1 1 [[1, 2, 3]] false).executed.count 5 = 1)) :=
  ⟨by decide,
    ForEachNeighbor_exception_entry everybodyLocal pickyModule 1 1 [[1, 2, 3]] false 5 true
      (by decide)⟩

/-- C21: when the modules leave the exception map as `ForEachNeighbor` built it
(the one entry of the source, with the flag `include_self`), the handler is
executed on the source exactly once if `include_self` is true and the source is
local and not quitting, and never if `include_self` is false; this whatever the
channels are, so also when the source is a member of each of them. -/
theorem ForEachNeighbor_source (w : Users) (hook : NeighborHook) (newid : Nat)
    (source : UserId) (chans : List Channel) (include_self : Bool)
    (hmap : (hook source chans (selfException source include_self)).2.entries =
      (selfException source include_self).entries) :
    (include_self = true → w.IS_LOCAL source = true → w.quitting source = false →
      (ForEachNeighbor w hook newid source chans include_self).executed.count source = 1) ∧
    (include_self = false →
      source ∉ (ForEachNeighbor w hook newid source chans include_self).executed) := by
  have hk : source ∈ (hook source chans (selfException source include_self)).2.entries.map
      Prod.fst := by
    rw [hmap]
    simp [selfException]
  have hcount := ForEachNeighbor_count w hook newid source chans include_self source
  rw [if_pos hk, hmap] at hcount
  refine ⟨?_, ?_⟩
  · intro hs hl hq
    rw [hcount, if_pos ⟨by simp [selfException, hs], hl, hq⟩]
  · intro hs
    rw [← List.count_eq_zero, hcount, if_neg (by simp [selfException, hs])]

theorem ForEachNeighbor_source_witness :
    (noModule 1 [[1, 2], [3, 1]] (selfException 1 true)).2.entries =
      (selfException 1 true).entries ∧
    ((true = true → everybodyLocal.IS_LOCAL 1 = true → everybodyLocal.quitting 1 = false →
      (ForEachNeighbor everybodyLocal noModule 1 1 [[1, 2], [3, 1]] true).executed.count 1 = 1) ∧
    (true = false →
      1 ∉ (ForEachNeighbor everybodyLocal noModule 1 1 [[1, 2], [3, 1]] true).executed)) :=
  ⟨rfl, ForEachNeighbor_source everybodyLocal noModule 1 1 [[1, 2], [3, 1]] true rfl⟩

/-- C22: the constructor of a user of a type other than `USERTYPE_SERVER`, called
with a uuid that is a key of the uuid list, throws the `CoreException` "Duplicate
UUID in User constructor: " followed by the uuid and leaves the uuid list as it
was; called with a uuid that is no key, it throws nothing and leaves the uuid
mapped to the new user and every other uuid as it was.  The constructor of a user
of the type `USERTYPE_SERVER` throws nothing and leaves the uuid list as it
was. -/
theorem User_User_uuidlist (uuidlist : UuidList) (this : UserId) (uid : String)
    (type : UserType) :
    (type ≠ UserType.USERTYPE_SERVER → (∃ old, uuidlist uid = some old) →
      (User_User uuidlist this uid type).thrown =
        some ("Duplicate UUID in User constructor: " ++ uid) ∧
      (User_User uuidlist this uid type).uuidlist = uuidlist) ∧
    (type ≠ UserType.USERTYPE_SERVER → uuidlist uid = none →
      (User_User uuidlist this uid type).thrown = none ∧
      (User_User uuidlist this uid type).uuidlist uid = some this ∧
      ∀ k, k ≠ uid → (User_User uuidlist this uid type).uuidlist k = uuidlist k) ∧
    (type = UserType.USERTYPE_SERVER →
      (User_User uuidlist this uid type).thrown = none ∧
      (User_User uuidlist this uid type).uuidlist = uuidlist) := by
  refine ⟨?_, ?_, ?_⟩
  · rintro ht ⟨old, ho⟩
    simp [User_User, uuidlist_insert, ht, ho]
  · intro ht ho
    refine ⟨?_, ?_, ?_⟩
    · simp [User_User, uuidlist_insert, ht, ho]
    · simp [User_User, uuidlist_insert, ht, ho]
    · intro k hk
      simp [User_User, uuidlist_insert, ht, ho, hk]
  · intro ht
    simp [User_User, ht]

theorem User_User_uuidlist_witness :
    (User_User oneUuid 8 "001AAAAAA" UserType.USERTYPE_LOCAL).thrown =
      some ("Duplicate UUID in User constructor: " ++ "001AAAAAA") ∧
    (User_User oneUuid 8 "001AAAAAA" UserType.USERTYPE_LOCAL).uuidlist = oneUuid :=
  (User_User_uuidlist oneUuid 8 "001AAAAAA" UserType.USERTYPE_LOCAL).1 (by decide)
    ⟨7, by decide⟩

/-- C23, as the code has it: `ForEachNeighbor` treats a quitting user as excluded
in the loop over the exception map alone.  The handler is never executed on a
quitting connection that has an entry in the exception map, whatever the flag of
the entry and the channels are.  The loop over the members of the included
channels does not read the quitting flag: a quitting local connection without an
entry, that is a member of an included channel and whose `already_sent` stamp
differs from the new id, gets the handler executed exactly once. -/
theorem ForEachNeighbor_quitting (w : Users) (hook : NeighborHook) (newid : Nat)
    (source : UserId) (chans : List Channel) (include_self : Bool) (x : UserId)
    (hq : w.quitting x = true) :
    (x ∈ (hook source chans (selfException source include_self)).2.entries.map Prod.fst →
      x ∉ (ForEachNeighbor w hook newid source chans include_self).executed) ∧
    (x ∉ (hook source chans (selfException source include_self)).2.entries.map Prod.fst →
      w.IS_LOCAL x = true →
      (∃ c ∈ (hook source chans (selfException source include_self)).1, x ∈ c) →
      w.already_sent x ≠ newid →
      (ForEachNeighbor w hook newid source chans include_self).executed.count x = 1) := by
  refine ⟨?_, ?_⟩
  · intro hk
    rw [← List.count_eq_zero, ForEachNeighbor_count, if_pos hk, if_neg (by simp [hq])]
  · intro hk hl hc hs
    rw [ForEachNeighbor_count, if_neg hk, if_pos ⟨hc, hl, hs⟩]

theorem ForEachNeighbor_quitting_witness :
    departing.quitting 2 = true ∧
    ((2 ∈ (noModule 2 [[1, 2]] (selfException 2 true)).2.entries.map Prod.fst →
      2 ∉ (ForEachNeighbor departing noModule 1 2 [[1, 2]] true).executed) ∧
    (2 ∉ (noModule 2 [[1, 2]] (selfException 2 true)).2.entries.map Prod.fst →
      departing.IS_LOCAL 2 = true →
      (∃ c ∈ (noModule 2 [[1, 2]] (selfException 2 true)).1, 2 ∈ c) →
      departing.already_sent 2 ≠ 1 →
      (ForEachNeighbor departing noModule 1 2 [[1, 2]] true).executed.count 2 = 1)) :=
  ⟨rfl, ForEachNeighbor_quitting departing noModule 1 2 [[1, 2]] true 2 rfl⟩

/-- C23 as stated fails: in `departing` the user 2 is local and quitting; with no
module and the source 1 in a channel with the user 2, `ForEachNeighbor` executes
the handler on the user 2, and on nobody else: the loop over the members of the
channels does not test the flag.  The loop over the exceptions does: with the
user 2 as the source and `include_self` true, the handler is executed on the
user 1 alone. -/
theorem ForEachNeighbor_quitting_member :
    departing.IS_LOCAL 2 = true ∧ departing.quitting 2 = true ∧
    (ForEachNeighbor departing noModule 1 1 [[1, 2]] false).executed = [2] ∧
    (ForEachNeighbor departing noModule 1 2 [[1, 2]] true).executed = [1] := by
  decide

/-- C24: every line `OnDataReady` hands to the dispatcher (the dispatcher is called
with `d.line`) holds no line feed, no carriage return and no NUL, and has at most
`maxmessage MaxLine` bytes, which is `MaxLine - 2` for a `MaxLine` of at least 2
that fits `size_t`; this for every content of `recvq`. -/
theorem OnDataReady_line_is_clean (PB : Dispatcher) (MaxLine : Nat) (recvq : List Byte)
    (u : Session) (d : Dispatched) (hd : d ∈ (OnDataReady PB MaxLine recvq u).dispatched) :
    d.returned = PB d.line d.handed ∧
    LF ∉ d.line ∧ CR ∉ d.line ∧ NUL ∉ d.line ∧
    d.line.length ≤ maxmessage MaxLine ∧
    (2 ≤ MaxLine → MaxLine < 2 ^ 64 → d.line.length ≤ MaxLine - 2) := by
  obtain ⟨r0, u0, rfl, hm, _, _, _⟩ := (OnDataReady_linked PB MaxLine recvq u).mem hd
  have hlen : (pass PB (maxmessage MaxLine) r0 u0).line.length ≤ maxmessage MaxLine := by
    generalize maxmessage MaxLine = mm
    show ((clean (content r0)).take mm).length ≤ mm
    rw [List.length_take]
    exact Nat.min_le_left _ _
  refine ⟨pass_returned _ _ _ _, ?_, ?_, ?_, hlen, ?_⟩
  · generalize maxmessage MaxLine = mm
    exact fun h => LF_not_mem_clean (LF_not_mem_content r0) (List.mem_of_mem_take h)
  · generalize maxmessage MaxLine = mm
    exact CR_not_mem_sanitize mm (content r0)
  · generalize maxmessage MaxLine = mm
    exact fun h => NUL_not_mem_clean (content r0) (List.mem_of_mem_take h)
  · intro h2 hw
    rw [← maxmessage_eq h2 hw]
    exact hlen

theorem OnDataReady_line_is_clean_witness :
    crNulPass ∈ (OnDataReady idle 512 [13, 0, 10] guest).dispatched ∧
    (crNulPass.returned = idle crNulPass.line crNulPass.handed ∧
    LF ∉ crNulPass.line ∧ CR ∉ crNulPass.line ∧ NUL ∉ crNulPass.line ∧
    crNulPass.line.length ≤ maxmessage 512 ∧
    (2 ≤ 512 → 512 < 2 ^ 64 → crNulPass.line.length ≤ 512 - 2)) :=
  have hmem : crNulPass ∈ (OnDataReady idle 512 [13, 0, 10] guest).dispatched :=
    List.Mem.head _
  ⟨hmem, OnDataReady_line_is_clean idle 512 [13, 0, 10] guest crNulPass hmem⟩

/-- C25: `OnDataReady` terminates for every content of `recvq` and every
dispatcher.  The outer loop is run with `recvq.length + 1` passes allowed, and
allowing more changes nothing: the loop has stopped by itself before it has used
them.  Each pass that dispatches a line leaves `recvq` shorter than it found it,
and the number of lines dispatched in one call is at most the number of line
feeds in `recvq` on entry (the dispatcher of the model cannot touch `recvq`). -/
theorem OnDataReady_terminates (PB : Dispatcher) (MaxLine : Nat) (recvq : List Byte)
    (u : Session) :
    (u.quitting = false →
      ¬ (recvq.length > u.MyClass.GetRecvqMax ∧
        (!HasPrivPermission u "users/flood/increased-buffers") = true) →
      ∀ fuel, recvq.length < fuel →
        consume PB (penaltymax u) (sendqmax u) (maxmessage MaxLine) fuel recvq u =
          OnDataReady PB MaxLine recvq u) ∧
    (∀ d ∈ (OnDataReady PB MaxLine recvq u).dispatched,
      d.recvq_after.length < d.recvq_before.length) ∧
    (OnDataReady PB MaxLine recvq u).dispatched.length ≤ recvq.count LF := by
  refine ⟨?_, ?_, ?_⟩
  · intro hq hr fuel hf
    unfold OnDataReady
    rw [if_neg (by simp [hq]), if_neg hr]
    exact consume_fuel _ _ _ _ _ _ _ _ hf (Nat.lt_succ_self _)
  · intro d hd
    obtain ⟨r0, u0, rfl, hm, _, _, _⟩ := (OnDataReady_linked PB MaxLine recvq u).mem hd
    exact pass_shrinks _ _ _ _ hm
  · unfold OnDataReady
    split
    · exact Nat.zero_le _
    · split
      · exact Nat.zero_le _
      · exact consume_count _ _ _ _ _ _ _

/-- C26: for a user whose real host is not empty, `ChangeRealHost(host, false)`
leaves the real host equal to `host` and the value of `GetDisplayedHost()` as it
was, so that a user with no displayed host of its own goes on showing the old
real host; `ChangeRealHost(host, true)` leaves both `GetRealHost()` and
`GetDisplayedHost()` equal to `host`. -/
theorem ChangeRealHost_hosts (u : Hosts) (host : String) (hreal : u.realhost ≠ "") :
    GetRealHost (ChangeRealHost u host false) = host ∧
    GetDisplayedHost (ChangeRealHost u host false) = GetDisplayedHost u ∧
    (u.displayhost = "" → GetDisplayedHost (ChangeRealHost u host false) = u.realhost) ∧
    GetRealHost (ChangeRealHost u host true) = host ∧
    GetDisplayedHost (ChangeRealHost u host true) = host := by
  obtain ⟨r, d⟩ := u
  simp only at hreal
  by_cases h1 : r = host <;> by_cases h2 : d = "" <;> by_cases h3 : d = host
  all_goals simp [GetRealHost, GetDisplayedHost, ChangeRealHost, h1, h2, h3, hreal]
  all_goals simp_all

theorem ChangeRealHost_hosts_witness :
    plainHost.realhost ≠ "" ∧
    (GetRealHost (ChangeRealHost plainHost "irc.example.org" false) = "irc.example.org" ∧
    GetDisplayedHost (ChangeRealHost plainHost "irc.example.org" false) =
      GetDisplayedHost plainHost ∧
    (plainHost.displayhost = "" →
      GetDisplayedHost (ChangeRealHost plainHost "irc.example.org" false) =
        plainHost.realhost) ∧
    GetRealHost (ChangeRealHost plainHost "irc.example.org" true) = "irc.example.org" ∧
    GetDisplayedHost (ChangeRealHost plainHost "irc.example.org" true) = "irc.example.org") :=
  ⟨by decide, ChangeRealHost_hosts plainHost "irc.example.org" (by decide)⟩

/-- C27: for an `AccountItem` whose account name is not empty and holds no space,
whatever its tag, `unserialize` of what `serialize` gives for the item stores an
item with the same account name and the same tag, whatever the container held;
`serialize` of an absent item is the empty string, and `unserialize` of the
empty string leaves the container without an item. -/
theorem ServicesExtItem_round_trip (item : AccountItem) (held : Option AccountItem)
    (hne : item.account ≠ []) (hsp : SPACE ∉ item.account) :
    unserialize held (serialize (some item)) = some item ∧
    serialize none = [] ∧
    unserialize held [] = none := by
  obtain ⟨account, tag⟩ := item
  simp only at hne hsp
  refine ⟨?_, rfl, rfl⟩
  by_cases ht : tag = []
  · subst ht
    simp [serialize, unserialize, hne, find_of_not_mem SPACE account hsp]
  · simp [serialize, unserialize, ht, hne, find_append_of_not_mem SPACE account tag hsp]

theorem ServicesExtItem_round_trip_witness :
    bobItem.account ≠ [] ∧ SPACE ∉ bobItem.account ∧
    (unserialize none (serialize (some bobItem)) = some bobItem ∧
    serialize none = [] ∧
    unserialize none [] = none) :=
  ⟨by decide, by decide, ServicesExtItem_round_trip bobItem none (by decide) (by decide)⟩

/-- C28 does not hold of the code: in `modesIZ` the user modes `i` and `z` are
registered and set on the user; `GetModeLetters` returns `+i`, without the `z`,
with and without the parameters.  The loop goes on while the letter is below `z`,
so the handler of `z` is never looked up. -/
theorem GetModeLetters_omits_z :
    (∃ mh, modesIZ 122 = some mh ∧ mh.IsModeSet = true ∧ mh.GetModeChar = 122) ∧
    GetModeLetters modesIZ false = [43, 105] ∧
    GetModeLetters modesIZ true = [43, 105] := by
  refine ⟨⟨⟨122, false, true, []⟩, rfl, rfl, rfl⟩, ?_, ?_⟩ <;> decide

end InspIRCd
